import Mathlib

/-!
# Cluster-state synchronisation: merge and per-connection send pipeline

A shallow embedding of `src/ray/common/component_syncer.h`:

* `RaySyncer` — the coordinator holding the cluster view, with its two
  `Update` overloads (single message, batch);
* `NodeSyncContext` — one bidirectional session with its suppression table
  (`node_versions_`), outbound queue (`out_buffer_`) and the write pipeline
  (`Update`, `OnReadDone`, `OnWriteDone`, `SendNextMessage`).

Hash maps are embedded as partial functions from the key, `std::array`s indexed
by a component id as total functions from the index, `std::vector` as `List`.
A component id is a value of the enumeration `RayComponentId`, every value of which
is below `kComponentArraySize`, so array accesses are in range.
Versions are unsigned 64-bit integers in the program; the program only stores and
compares them (no arithmetic), so they are embedded as `Nat`.
Calls to collaborators whose bodies are outside the header (`BroadcastMessage`,
`StartWrite`, `StartRead`, the coordinator reached through `instance_`) are
recorded, in call order, in ghost log fields.
-/

namespace ray.syncing

/-! ## Message model -/

/-- Modelled from the spec: the enumeration `RaySyncMessageType` of the generated
protobuf code (section 3: SNAPSHOT, full state, versus DELTA, reserved). -/
inductive RaySyncMessageType where
  | SNAPSHOT
  | DELTA
deriving DecidableEq, Repr

/-- Modelled from the spec: the protobuf message `RaySyncMessage` (generated code);
the fields are those of section 3, read in the header through the accessors
`node_id()`, `component_id()` and `version()`. The component id is the integer value
of the enumeration `RayComponentId`, used by the header as an array index. -/
structure RaySyncMessage where
  version : Nat
  message_type : RaySyncMessageType
  component_id : Nat
  sync_message : String
  node_id : String
deriving DecidableEq, Repr

/-- A message of type SNAPSHOT with the given fields, built the way the test's
`LocalNode::Snapshot` fills one in (test_syncer_service.cc, lines 36-47). -/
def snapshot (node_id : String) (component_id version : Nat) (sync_message : String) :
    RaySyncMessage :=
  { version := version, message_type := RaySyncMessageType.SNAPSHOT,
    component_id := component_id, sync_message := sync_message, node_id := node_id }

/-- The batch container `RaySyncMessages`: the repeated field `sync_messages`. -/
abbrev RaySyncMessages := List RaySyncMessage

/-! ## The coordinator `RaySyncer` -/

/-- The per-node array `Array<std::shared_ptr<RaySyncMessage>>`: one slot per
component id, `none` for a null pointer. -/
abbrev MessageArray := Nat → Option RaySyncMessage

/-- The state of `RaySyncer` that the header's inline member functions touch.
`Reporter` and `Receiver` pointers are embedded as handles (`none` is `nullptr`).
`broadcast_calls` is a ghost log: the arguments of the calls to
`BroadcastMessage`, oldest first. -/
structure RaySyncer where
  cluster_view_ : String → Option MessageArray
  reporters_ : Nat → Option Nat
  receivers_ : Nat → Option Nat
  broadcast_calls : List RaySyncMessage

namespace RaySyncer

/-- A coordinator that has seen no message and has no component registered. -/
def empty : RaySyncer where
  cluster_view_ := fun _ => none
  reporters_ := fun _ => none
  receivers_ := fun _ => none
  broadcast_calls := []

/-- `RaySyncer::Register` (lines 48-52). -/
def Register (s : RaySyncer) (component_id : Nat) (reporter receiver : Option Nat) :
    RaySyncer :=
  { s with
    reporters_ := fun c => if c = component_id then reporter else s.reporters_ c
    receivers_ := fun c => if c = component_id then receiver else s.receivers_ c }

/-- The array reached by `cluster_view_[node_id]`: the stored one, or the
value-initialised array (all null) that `operator[]` inserts for a new key. -/
def viewArray (s : RaySyncer) (node_id : String) : MessageArray :=
  (s.cluster_view_ node_id).getD (fun _ => none)

/-- `RaySyncer::Update(RaySyncMessage)` (lines 54-62). -/
def Update (s : RaySyncer) (message : RaySyncMessage) : RaySyncer :=
  let arr := s.viewArray message.node_id
  -- the map after `cluster_view_[message.node_id()]`
  let s1 : RaySyncer :=
    { s with cluster_view_ := fun n => if n = message.node_id then some arr else s.cluster_view_ n }
  let store : RaySyncer :=
    { s1 with
      cluster_view_ := fun n =>
        if n = message.node_id then
          some (fun c => if c = message.component_id then some message else arr c)
        else s.cluster_view_ n
      broadcast_calls := s.broadcast_calls ++ [message] }
  match arr message.component_id with
  | some current_message =>
    if current_message.version ≥ message.version then s1 else store
  | none => store

/-- `RaySyncer::Update(RaySyncMessages)` (lines 64-68): the messages one by one,
in sequence order. -/
def UpdateMessages (s : RaySyncer) (messages : RaySyncMessages) : RaySyncer :=
  messages.foldl Update s

/-- The content of the cluster-view slot of `(node_id, component_id)`; `none` when
the node is unknown or the slot holds a null pointer. -/
def slot (s : RaySyncer) (node_id : String) (component_id : Nat) : Option RaySyncMessage :=
  (s.cluster_view_ node_id).bind (fun arr => arr component_id)

/-- The version held in a slot, `none` for an empty slot. -/
def slotVersion (s : RaySyncer) (node_id : String) (component_id : Nat) : Option Nat :=
  (s.slot node_id component_id).map (fun m => m.version)

/-- Whether `Update(message)` takes the accepting path: the slot is empty or holds a
strictly smaller version (the negation of the test at line 56). -/
def accepts (s : RaySyncer) (message : RaySyncMessage) : Prop :=
  ∀ cur, s.slot message.node_id message.component_id = some cur → cur.version < message.version

/-- The versions of the messages of a sequence that carry the key
`(node_id, component_id)`, in sequence order. -/
def appliedVersions (messages : List RaySyncMessage) (node_id : String) (component_id : Nat) :
    List Nat :=
  (messages.filter (fun m => m.node_id = node_id ∧ m.component_id = component_id)).map
    (fun m => m.version)

/-- The maximum of a list of versions (0 for the empty list). -/
def maxVersion (versions : List Nat) : Nat :=
  versions.foldr max 0

/-- The version comparison of line 56 on versions alone: what the slot's version
becomes when a message of version `v` for its key is passed to `Update`. -/
def mergeVersion (stored : Option Nat) (v : Nat) : Option Nat :=
  match stored with
  | none => some v
  | some w => if w ≥ v then some w else some v

/-- The test of line 56 on a slot: what a slot holding `stored` holds after
`Update(message)` for its key. -/
def mergeSlot (stored : Option RaySyncMessage) (message : RaySyncMessage) :
    Option RaySyncMessage :=
  match stored with
  | some current_message =>
    if current_message.version ≥ message.version then some current_message else some message
  | none => some message

/-- The messages of a sequence that carry the key `(node_id, component_id)`. -/
def messagesFor (messages : List RaySyncMessage) (node_id : String) (component_id : Nat) :
    List RaySyncMessage :=
  messages.filter (fun m => m.node_id = node_id ∧ m.component_id = component_id)

/-- Modelled from the spec: the local delivery done by `RaySyncer::BroadcastMessage`,
which the header declares (line 78) and calls from `Update` (line 61) but whose body
is outside the sources. Section 4.1: an accepted message is "delivered to the local
Receiver registered for that component, if any". The result lists the invocations of
`Receiver::Update` as pairs (receiver handle, message). -/
def BroadcastMessage_deliver (s : RaySyncer) (message : RaySyncMessage) :
    List (Nat × RaySyncMessage) :=
  match s.receivers_ message.component_id with
  | some receiver => [(receiver, message)]
  | none => []

/-- The invocations of `Receiver::Update` during one call `Update(message)`: the
deliveries of the `BroadcastMessage` calls that this call adds to the log. -/
def receiverCalls (s : RaySyncer) (message : RaySyncMessage) : List (Nat × RaySyncMessage) :=
  (((s.Update message).broadcast_calls.drop s.broadcast_calls.length).map
    (BroadcastMessage_deliver (s.Update message))).flatten

end RaySyncer

/-! ## The connection session `NodeSyncContext` -/

/-- The per-node array `std::array<uint64_t, kComponentArraySize>` of the
suppression table: one version per component id. -/
abbrev VersionArray := Nat → Nat

/-- Ghost log entries: the calls a session makes to its collaborators, the
transport (`StartWrite`, `StartRead`, `Finish`) and the coordinator
(`instance_.Update`). -/
inductive Call where
  | StartWrite (batch : RaySyncMessages)
  | StartRead
  | InstanceUpdate (batch : RaySyncMessages)
  | Finish
deriving DecidableEq, Repr

/-- The data members of `NodeSyncContext<T>` (lines 222-234) used by the send and
receive pipeline. `out_message_` is `none` for `nullptr`, else the batch handed to
the transport; `kIsServer` is the role fixed by the template argument; `calls` is
the ghost log, oldest call first. -/
structure NodeSyncContext where
  kIsServer : Bool
  in_message_ : RaySyncMessages
  out_message_ : Option RaySyncMessages
  consumed_messages_ : Nat
  out_buffer_ : List RaySyncMessage
  node_versions_ : String → Option VersionArray
  calls : List Call

namespace NodeSyncContext

/-- The initial state of a session that has finished its handshake: empty queue,
empty suppression table, no write in flight, consumed count 0. The constructor
(lines 118-121) gives `out_message_` and `consumed_messages_` no initial value; the
values here are the ones the pipeline is written for. -/
def init (kIsServer : Bool) : NodeSyncContext where
  kIsServer := kIsServer
  in_message_ := []
  out_message_ := none
  consumed_messages_ := 0
  out_buffer_ := []
  node_versions_ := fun _ => none
  calls := []

/-- `NodeSyncContext::GetNodeComponentVersions` (lines 203-212), the effect on the
map: a missing node gets a value-initialised (all zero) array. The reference it
returns is read with `versionOf` and written with `setVersion`. -/
def GetNodeComponentVersions (s : NodeSyncContext) (node_id : String) : NodeSyncContext :=
  match s.node_versions_ node_id with
  | some _ => s
  | none =>
    { s with node_versions_ := fun n => if n = node_id then some (fun _ => 0) else s.node_versions_ n }

/-- The suppression-table entry of `(node_id, component_id)`: what
`GetNodeComponentVersions(node_id)[component_id]` reads; 0 for a node without an
array. -/
def versionOf (s : NodeSyncContext) (node_id : String) (component_id : Nat) : Nat :=
  match s.node_versions_ node_id with
  | some arr => arr component_id
  | none => 0

/-- The write `node_versions[component_id] = version` through the reference of
`GetNodeComponentVersions(node_id)`. -/
def setVersion (s : NodeSyncContext) (node_id : String) (component_id version : Nat) :
    NodeSyncContext :=
  { s with
    node_versions_ := fun n =>
      if n = node_id then
        some (fun c => if c = component_id then version else s.versionOf node_id c)
      else s.node_versions_ n }

/-- The loop of lines 190-197 over the reversed queue: `inserted` is the set of node
ids already taken, `batch` the messages added to `out_message_` so far. -/
def coalesceLoop :
    List RaySyncMessage → List String → RaySyncMessages → RaySyncMessages
  | [], _, batch => batch
  | m :: rest, inserted, batch =>
    if m.node_id ∈ inserted then coalesceLoop rest inserted batch
    else coalesceLoop rest (m.node_id :: inserted) (batch ++ [m])

/-- The batch built from a queue: iterate from `rbegin()` to `rend()`. -/
def coalesce (out_buffer : List RaySyncMessage) : RaySyncMessages :=
  coalesceLoop out_buffer.reverse [] []

/-- `NodeSyncContext::SendNextMessage` (lines 181-201). The erase of the first
`consumed_messages_` entries is `List.drop`; the C++ erase is only defined when
the count does not exceed the queue length. -/
def SendNextMessage (s : NodeSyncContext) : NodeSyncContext :=
  let out_buffer := s.out_buffer_.drop s.consumed_messages_
  if out_buffer = [] then
    { s with out_buffer_ := out_buffer, out_message_ := none }
  else
    { s with
      out_buffer_ := out_buffer
      out_message_ := some (coalesce out_buffer)
      consumed_messages_ := out_buffer.length
      calls := s.calls ++ [Call.StartWrite (coalesce out_buffer)] }

/-- Lines 140-145 of `NodeSyncContext::Update`: the suppression check, the
`push_back` and the table write. -/
def enqueue (s : NodeSyncContext) (message : RaySyncMessage) : NodeSyncContext :=
  let s1 := s.GetNodeComponentVersions message.node_id
  if s1.versionOf message.node_id message.component_id < message.version then
    ({ s1 with out_buffer_ := s1.out_buffer_ ++ [message] }).setVersion
      message.node_id message.component_id message.version
  else s1

/-- `NodeSyncContext::Update` (lines 138-150). -/
def Update (s : NodeSyncContext) (message : RaySyncMessage) : NodeSyncContext :=
  let s2 := s.enqueue message
  if s2.out_message_ = none then s2.SendNextMessage else s2

/-- `NodeSyncContext::HandleFailure` (lines 214-220). -/
def HandleFailure (s : NodeSyncContext) : NodeSyncContext :=
  if s.kIsServer then { s with calls := s.calls ++ [Call.Finish] } else s

/-- The body of the loop of lines 156-161 for one received message. -/
def recordReceived (s : NodeSyncContext) (message : RaySyncMessage) : NodeSyncContext :=
  let s1 := s.GetNodeComponentVersions message.node_id
  if s1.versionOf message.node_id message.component_id < message.version then
    s1.setVersion message.node_id message.component_id message.version
  else s1

/-- `NodeSyncContext::OnReadDone` (lines 152-170); the received batch is the
content of `in_message_`. The dispatched closure runs as one step. The call
`instance_.Update(in_message_)` is logged; the calls of `Update` that the coordinator
makes on this session in return are events of their own (`Event.Enqueue`). -/
def OnReadDone (s : NodeSyncContext) (ok : Bool) : NodeSyncContext :=
  if ok then
    let s1 := s.in_message_.foldl recordReceived s
    { s1 with
      in_message_ := []
      calls := s1.calls ++ [Call.InstanceUpdate s.in_message_, Call.StartRead] }
  else s.HandleFailure

/-- `NodeSyncContext::OnWriteDone` (lines 172-178). -/
def OnWriteDone (s : NodeSyncContext) (ok : Bool) : NodeSyncContext :=
  if ok then s.SendNextMessage else s.HandleFailure

/-- The batches handed to `StartWrite`, oldest first. -/
def writes (s : NodeSyncContext) : List RaySyncMessages :=
  s.calls.filterMap (fun c => match c with | Call.StartWrite b => some b | _ => none)

end NodeSyncContext

/-- The events that drive one session: a call of `Update` by the coordinator, a
successful read completion delivering a batch, a successful write completion. -/
inductive Event where
  | Enqueue (message : RaySyncMessage)
  | ReadDone (batch : RaySyncMessages)
  | WriteDone
deriving DecidableEq, Repr

namespace NodeSyncContext

/-- One event applied to a session. -/
def step (s : NodeSyncContext) : Event → NodeSyncContext
  | Event.Enqueue message => s.Update message
  | Event.ReadDone batch => ({ s with in_message_ := batch }).OnReadDone true
  | Event.WriteDone => s.OnWriteDone true

/-- The state after a sequence of events. -/
def run (s : NodeSyncContext) (events : List Event) : NodeSyncContext :=
  events.foldl step s

/-- The queue that `SendNextMessage` builds its batch from (line 182): the outbound
queue once the first `consumed_messages_` entries are erased. -/
def pending (s : NodeSyncContext) : List RaySyncMessage :=
  s.out_buffer_.drop s.consumed_messages_

/-- A session with one write in flight and three later versions of node "X" and one
message of node "Y" waiting behind it. -/
def threeQueued : NodeSyncContext :=
  (init true).run
    [Event.Enqueue (snapshot "X" 0 1 "a"), Event.Enqueue (snapshot "X" 0 2 "b"),
     Event.Enqueue (snapshot "Y" 0 1 "c"), Event.Enqueue (snapshot "X" 0 3 "d"),
     Event.Enqueue (snapshot "X" 0 4 "e")]

/-- The successful read completion of a batch: `OnReadDone(true)` run on the session
whose read buffer `in_message_` holds the received batch. -/
def readCompleted (s : NodeSyncContext) (batch : RaySyncMessages) : NodeSyncContext :=
  ({ s with in_message_ := batch }).OnReadDone true

/-- The server-side session after `Update` of version 1 of node "A" from the initial
state and the successful completion of the write that this call started. -/
def afterFirstWrite : NodeSyncContext :=
  (init true).run [Event.Enqueue (snapshot "A" 0 1 "x"), Event.WriteDone]

end NodeSyncContext

/-- The messages received from the peer during a sequence of events, oldest first. -/
def received (events : List Event) : List RaySyncMessage :=
  (events.map (fun e => match e with | Event.ReadDone batch => batch | _ => [])).flatten

/-- The message was passed to `Update` at a point of the event sequence before which
every version received for its key was strictly smaller than its own. -/
def enqueuedFresh (events : List Event) (m : RaySyncMessage) : Prop :=
  ∃ before after, events = before ++ Event.Enqueue m :: after ∧
    ∀ r ∈ received before, r.node_id = m.node_id → r.component_id = m.component_id →
      r.version < m.version

/-! ## The handshake of the two reactors -/

/-- Session-establishment metadata as the header reads it: the value that
`metadata.find(key)` reaches, `none` when `find` returns `end()`. -/
abbrev Metadata := String → Option String

/-- Modelled from the spec: the macro `RAY_CHECK`, defined outside the sources. By
sections 4.2 and 7 a missing node identity is fatal and the session is terminated: a
failed check is the result `none`, and what follows the check does not run. -/
def RAY_CHECK (condition : Bool) : Option Unit :=
  if condition then some () else none

/-- Ghost log entries of the handshake: the transport calls made by `Init`. -/
inductive HandshakeCall where
  | StartSendInitialMetadata
  | StartCall
deriving DecidableEq, Repr

/-- A reactor, `SyncServerReactor` or `SyncClientReactor` (lines 237-266): the
pipeline members of its base class in `base` (whose `kIsServer` is the role and whose
`calls` logs `StartRead`), the peer id `node_id_` (a default-constructed string, empty
until assigned), and the ghost log of the handshake calls. -/
structure Reactor where
  base : NodeSyncContext
  node_id_ : String
  handshake_calls : List HandshakeCall

namespace Reactor

/-- The call `StartRead(&in_message_)`. -/
def StartRead (r : Reactor) : Reactor :=
  { r with base := { r.base with calls := r.base.calls ++ [Call.StartRead] } }

/-- The reactor as the member initialisers of the constructor (lines 118-119) leave
it, before the constructor body calls `Init`. -/
def constructed (kIsServer : Bool) : Reactor where
  base := NodeSyncContext.init kIsServer
  node_id_ := ""
  handshake_calls := []

/-- `NodeSyncContext::Init` (lines 123-134), run by the constructor;
`client_metadata` is what `rpc_context_->client_metadata()` returns. The result is
`none` when the `RAY_CHECK` fails. -/
def Init (r : Reactor) (client_metadata : Metadata) : Option Reactor :=
  if r.base.kIsServer then
    let iter := client_metadata "node_id"
    match RAY_CHECK iter.isSome, iter with
    | some _, some value =>
      some { r with
        node_id_ := value
        handshake_calls := r.handshake_calls ++ [HandshakeCall.StartSendInitialMetadata] }
    | _, _ => none
  else
    some { r with handshake_calls := r.handshake_calls ++ [HandshakeCall.StartCall] }

/-- The constructor `NodeSyncContext(syncer, io_context, rpc_context)`
(lines 118-121). -/
def create (kIsServer : Bool) (client_metadata : Metadata) : Option Reactor :=
  (constructed kIsServer).Init client_metadata

/-- `NodeSyncContext::HandleFailure` on a reactor. -/
def HandleFailure (r : Reactor) : Reactor :=
  { r with base := r.base.HandleFailure }

/-- `SyncServerReactor::OnSendInitialMetadataDone` (lines 240-246). -/
def OnSendInitialMetadataDone (r : Reactor) (ok : Bool) : Reactor :=
  if ok then r.StartRead else r.HandleFailure

/-- `SyncClientReactor::OnReadInitialMetadataDone` (lines 253-264);
`server_metadata` is what `rpc_context_->GetServerInitialMetadata()` returns. The
result is `none` when the `RAY_CHECK` fails. -/
def OnReadInitialMetadataDone (r : Reactor) (ok : Bool) (server_metadata : Metadata) :
    Option Reactor :=
  if ok then
    let iter := server_metadata "node_id"
    match RAY_CHECK iter.isSome, iter with
    | some _, some value => some ({ r with node_id_ := value }).StartRead
    | _, _ => none
  else some r.HandleFailure

/-- The number of `StartRead` calls a reactor has made. -/
def reads (r : Reactor) : Nat :=
  r.base.calls.count Call.StartRead

end Reactor

/-- Metadata holding the single key `node_id`. -/
def nodeIdMetadata (value : String) : Metadata :=
  fun key => if key = "node_id" then some value else none

/-! ## Executions with failed completions -/

/-- Every event of one session: the successful events of `Event`, and the read and
write completions that report failure (`ok = false`). -/
inductive SessionEvent where
  | Ok (e : Event)
  | ReadFailed
  | WriteFailed
deriving DecidableEq, Repr

namespace SessionEvent

/-- Whether the event is the completion of a write, successful or not: a call of
`OnWriteDone`. -/
def isWriteCompletion : SessionEvent → Bool
  | Ok Event.WriteDone => true
  | WriteFailed => true
  | _ => false

end SessionEvent

namespace NodeSyncContext

/-- One event of either kind applied to a session. -/
def stepAny (s : NodeSyncContext) : SessionEvent → NodeSyncContext
  | SessionEvent.Ok e => s.step e
  | SessionEvent.ReadFailed => s.OnReadDone false
  | SessionEvent.WriteFailed => s.OnWriteDone false

/-- The state after a sequence of events of either kind. -/
def runAny (s : NodeSyncContext) (events : List SessionEvent) : NodeSyncContext :=
  events.foldl stepAny s

/-- The number of write completions processed in a sequence of events. -/
def writeCompletions (events : List SessionEvent) : Nat :=
  events.countP SessionEvent.isWriteCompletion

/-- The sequences of events the transport can deliver to a session in state `s` that
has had `done` write completions so far: a write completion arrives only while a
started write has none yet, that is while fewer completions than `StartWrite` calls
have been processed. -/
def deliverable (s : NodeSyncContext) (done : Nat) : List SessionEvent → Bool
  | [] => true
  | e :: rest =>
    if e.isWriteCompletion then
      decide (done < s.writes.length) && deliverable (s.stepAny e) (done + 1) rest
    else deliverable (s.stepAny e) done rest

end NodeSyncContext

/-- The versions a session has seen for the key `(node_id, component_id)` during a
sequence of events, oldest first: those of the messages passed to `Update` and those
of the messages received from the peer. -/
def seenVersions (events : List Event) (node_id : String) (component_id : Nat) : List Nat :=
  (events.map (fun e =>
    match e with
    | Event.Enqueue message => RaySyncer.appliedVersions [message] node_id component_id
    | Event.ReadDone batch => RaySyncer.appliedVersions batch node_id component_id
    | Event.WriteDone => [])).flatten

/-- The order of two queued messages: when they have the same
`(node_id, component_id)`, the earlier one has the strictly smaller version. -/
def versionOrdered (a b : RaySyncMessage) : Prop :=
  a.node_id = b.node_id → a.component_id = b.component_id → a.version < b.version

namespace NodeSyncContext

/-- A session with the write of version 1 of ("X", component 0) in flight and, queued
behind it, version 2 of the same key and version 1 of ("X", component 1). -/
def twoComponents : NodeSyncContext :=
  (init true).run
    [Event.Enqueue (snapshot "X" 0 1 "a"), Event.Enqueue (snapshot "X" 0 2 "b"),
     Event.Enqueue (snapshot "X" 1 1 "c")]

end NodeSyncContext

/-! ## Facts about the merge -/

namespace RaySyncer

theorem ext_fields {s t : RaySyncer} (h1 : s.cluster_view_ = t.cluster_view_)
    (h2 : s.reporters_ = t.reporters_) (h3 : s.receivers_ = t.receivers_)
    (h4 : s.broadcast_calls = t.broadcast_calls) : s = t := by
  cases s; cases t; simp_all

theorem viewArray_apply (s : RaySyncer) (n : String) (c : Nat) :
    s.viewArray n c = s.slot n c := by
  unfold viewArray slot
  cases s.cluster_view_ n <;> rfl

/-- The discarding branch: the stored version is at least the incoming one. -/
theorem Update_of_stale (s : RaySyncer) (m cur : RaySyncMessage)
    (h : s.slot m.node_id m.component_id = some cur) (hv : m.version ≤ cur.version) :
    s.Update m = s := by
  have harr : s.viewArray m.node_id m.component_id = some cur := by
    rw [viewArray_apply]; exact h
  unfold Update
  simp only [harr, ge_iff_le, hv, if_true]
  apply ext_fields <;> try rfl
  funext n
  by_cases hn : n = m.node_id
  · subst hn
    simp only [if_true]
    unfold slot at h
    unfold viewArray
    cases hc : s.cluster_view_ m.node_id with
    | none => rw [hc] at h; simp at h
    | some a => rfl
  · simp [hn]

/-- The accepting branch, as a closed form of the new state. -/
theorem Update_of_fresh (s : RaySyncer) (m : RaySyncMessage)
    (h : ∀ cur, s.slot m.node_id m.component_id = some cur → cur.version < m.version) :
    s.Update m =
      { s with
        cluster_view_ := fun n =>
          if n = m.node_id then
            some (fun c => if c = m.component_id then some m else s.viewArray m.node_id c)
          else s.cluster_view_ n
        broadcast_calls := s.broadcast_calls ++ [m] } := by
  unfold Update
  cases harr : s.viewArray m.node_id m.component_id with
  | none => simp only [harr]
  | some cur =>
    have hlt := h cur (by rw [← viewArray_apply]; exact harr)
    simp only [harr, ge_iff_le, Nat.not_le.mpr hlt, if_false]

theorem slot_Update_of_fresh (s : RaySyncer) (m : RaySyncMessage)
    (h : ∀ cur, s.slot m.node_id m.component_id = some cur → cur.version < m.version)
    (n : String) (c : Nat) :
    (s.Update m).slot n c =
      if n = m.node_id ∧ c = m.component_id then some m else s.slot n c := by
  rw [Update_of_fresh s m h]
  unfold slot
  by_cases hn : n = m.node_id
  · subst hn
    by_cases hc : c = m.component_id
    · simp [hc]
    · simp [hc, viewArray_apply, slot]
  · simp [hn]

theorem accepts_or_stale (s : RaySyncer) (m : RaySyncMessage) :
    s.accepts m ∨ ∃ cur, s.slot m.node_id m.component_id = some cur ∧ m.version ≤ cur.version := by
  by_cases h : s.accepts m
  · exact Or.inl h
  · right
    unfold accepts at h
    push_neg at h
    exact h

theorem slot_Update_self (s : RaySyncer) (m : RaySyncMessage) (h : s.accepts m) :
    (s.Update m).slot m.node_id m.component_id = some m := by
  rw [slot_Update_of_fresh s m h]; simp

/-- C1. `RaySyncer::Update(m)`: when the slot of `(m.node_id, m.component_id)` is empty
or holds a strictly smaller version, afterwards that slot holds `m`, every other slot
is unchanged and `BroadcastMessage` is called exactly once, with `m` (the call log
grows by exactly `[m]`); when the slot holds a version `>= m.version`, the whole
state, cluster view and call log included, is unchanged. -/
theorem Update_spec (s : RaySyncer) (m : RaySyncMessage) :
    ((s.slot m.node_id m.component_id = none ∨
        ∃ cur, s.slot m.node_id m.component_id = some cur ∧ cur.version < m.version) →
      (s.Update m).slot m.node_id m.component_id = some m ∧
      (∀ n c, ¬ (n = m.node_id ∧ c = m.component_id) → (s.Update m).slot n c = s.slot n c) ∧
      (s.Update m).broadcast_calls = s.broadcast_calls ++ [m]) ∧
    ((∃ cur, s.slot m.node_id m.component_id = some cur ∧ m.version ≤ cur.version) →
      s.Update m = s ∧ (s.Update m).cluster_view_ = s.cluster_view_ ∧
      (s.Update m).broadcast_calls = s.broadcast_calls) := by
  constructor
  · intro h
    have hacc : s.accepts m := by
      intro cur hcur
      rcases h with h | ⟨cur2, h2, hlt⟩
      · rw [h] at hcur; cases hcur
      · rw [h2] at hcur; cases hcur; exact hlt
    refine ⟨slot_Update_self s m hacc, ?_, ?_⟩
    · intro n c hne
      rw [slot_Update_of_fresh s m hacc, if_neg hne]
    · rw [Update_of_fresh s m hacc]
  · rintro ⟨cur, hcur, hle⟩
    have := Update_of_stale s m cur hcur hle
    rw [this]
    exact ⟨rfl, rfl, rfl⟩

/-- C1, at concrete inputs: version 2 arrives over a stored version 1 (accepted), and
version 1 arrives over a stored version 2 (discarded). -/
theorem Update_spec_witness :
    ((empty.Update (snapshot "B" 0 1 "x")).Update (snapshot "B" 0 2 "y")).slot "B" 0
        = some (snapshot "B" 0 2 "y") ∧
    ((empty.Update (snapshot "B" 0 2 "y")).Update (snapshot "B" 0 1 "x"))
        = empty.Update (snapshot "B" 0 2 "y") :=
  ⟨((Update_spec (empty.Update (snapshot "B" 0 1 "x")) (snapshot "B" 0 2 "y")).1
      (Or.inr ⟨(snapshot "B" 0 1 "x"), by decide, by decide⟩)).1,
   ((Update_spec (empty.Update (snapshot "B" 0 2 "y")) (snapshot "B" 0 1 "x")).2
      ⟨(snapshot "B" 0 2 "y"), by decide, by decide⟩).1⟩

/-- C3. Idempotence of `RaySyncer::Update(m)`: the state after calling it twice in a
row is exactly the state after the first call, so the cluster view is the one of the
first call and the second call adds no `BroadcastMessage` call to the log. -/
theorem Update_idempotent (s : RaySyncer) (m : RaySyncMessage) :
    (s.Update m).Update m = s.Update m ∧
    ((s.Update m).Update m).cluster_view_ = (s.Update m).cluster_view_ ∧
    ((s.Update m).Update m).broadcast_calls = (s.Update m).broadcast_calls := by
  have key : (s.Update m).Update m = s.Update m := by
    rcases accepts_or_stale s m with h | ⟨cur, hcur, hle⟩
    · exact Update_of_stale (s.Update m) m m (slot_Update_self s m h) (Nat.le_refl _)
    · rw [Update_of_stale s m cur hcur hle]
      exact Update_of_stale s m cur hcur hle
  rw [key]
  exact ⟨rfl, rfl, rfl⟩

/-! ### The merge, slot by slot -/

theorem slot_Update (s : RaySyncer) (m : RaySyncMessage) (n : String) (c : Nat) :
    (s.Update m).slot n c =
      if n = m.node_id ∧ c = m.component_id then mergeSlot (s.slot n c) m else s.slot n c := by
  rcases accepts_or_stale s m with h | ⟨cur, hcur, hle⟩
  · rw [slot_Update_of_fresh s m h]
    by_cases hk : n = m.node_id ∧ c = m.component_id
    · obtain ⟨rfl, rfl⟩ := hk
      simp only [and_self, if_true]
      cases hs : s.slot m.node_id m.component_id with
      | none => rfl
      | some cur =>
        have := h cur hs
        simp [mergeSlot, Nat.not_le.mpr this]
    · simp [hk]
  · rw [Update_of_stale s m cur hcur hle]
    by_cases hk : n = m.node_id ∧ c = m.component_id
    · obtain ⟨rfl, rfl⟩ := hk
      simp [hcur, mergeSlot, hle]
    · simp [hk]

theorem cluster_view_Update_isSome (s : RaySyncer) (m : RaySyncMessage) (n : String) :
    ((s.Update m).cluster_view_ n).isSome = (decide (n = m.node_id) || (s.cluster_view_ n).isSome) := by
  rcases accepts_or_stale s m with h | ⟨cur, hcur, hle⟩
  · rw [Update_of_fresh s m h]
    by_cases hn : n = m.node_id <;> simp [hn]
  · rw [Update_of_stale s m cur hcur hle]
    by_cases hn : n = m.node_id
    · subst hn
      unfold slot at hcur
      cases hc : s.cluster_view_ m.node_id with
      | none => rw [hc] at hcur; cases hcur
      | some a => simp
    · simp [hn]

theorem messagesFor_cons (m : RaySyncMessage) (L : List RaySyncMessage) (n : String) (c : Nat) :
    messagesFor (m :: L) n c =
      if m.node_id = n ∧ m.component_id = c then m :: messagesFor L n c else messagesFor L n c := by
  unfold messagesFor
  rw [List.filter_cons]
  by_cases hk : m.node_id = n ∧ m.component_id = c
  · rw [if_pos hk, if_pos (by simpa using hk)]
  · rw [if_neg hk, if_neg (by simpa using hk)]

theorem slot_foldl_Update (L : List RaySyncMessage) (s : RaySyncer) (n : String) (c : Nat) :
    (L.foldl Update s).slot n c = (messagesFor L n c).foldl mergeSlot (s.slot n c) := by
  induction L generalizing s with
  | nil => rfl
  | cons m L ih =>
    rw [List.foldl_cons, ih, slot_Update, messagesFor_cons]
    by_cases hk : m.node_id = n ∧ m.component_id = c
    · have hk2 : n = m.node_id ∧ c = m.component_id := ⟨hk.1.symm, hk.2.symm⟩
      rw [if_pos hk, if_pos hk2, List.foldl_cons]
    · have hk2 : ¬ (n = m.node_id ∧ c = m.component_id) := fun h => hk ⟨h.1.symm, h.2.symm⟩
      rw [if_neg hk, if_neg hk2]

theorem cluster_view_foldl_isSome (L : List RaySyncMessage) (s : RaySyncer) (n : String) :
    ((L.foldl Update s).cluster_view_ n).isSome =
      (decide (n ∈ L.map (fun m => m.node_id)) || (s.cluster_view_ n).isSome) := by
  induction L generalizing s with
  | nil => simp
  | cons m L ih =>
    rw [List.foldl_cons, ih, cluster_view_Update_isSome]
    by_cases h1 : n = m.node_id <;> simp [h1, Bool.or_assoc, Bool.or_comm]

theorem cluster_view_eq_of_slots {s t : RaySyncer}
    (hdom : ∀ n, (s.cluster_view_ n).isSome = (t.cluster_view_ n).isSome)
    (hslot : ∀ n c, s.slot n c = t.slot n c) : s.cluster_view_ = t.cluster_view_ := by
  funext n
  have hd := hdom n
  cases hs : s.cluster_view_ n with
  | none =>
    cases ht : t.cluster_view_ n with
    | none => rfl
    | some b => rw [hs, ht] at hd; cases hd
  | some a =>
    cases ht : t.cluster_view_ n with
    | none => rw [hs, ht] at hd; cases hd
    | some b =>
      congr 1
      funext c
      have := hslot n c
      unfold slot at this
      rw [hs, ht] at this
      simpa using this

theorem mergeSlot_version (o : Option RaySyncMessage) (m : RaySyncMessage) :
    (mergeSlot o m).map (fun x => x.version) = mergeVersion (o.map (fun x => x.version)) m.version := by
  cases o with
  | none => rfl
  | some cur =>
    by_cases h : m.version ≤ cur.version <;> simp [mergeSlot, mergeVersion, h]

theorem foldl_mergeSlot_version (L : List RaySyncMessage) (o : Option RaySyncMessage) :
    (L.foldl mergeSlot o).map (fun x => x.version) =
      (L.map (fun x => x.version)).foldl mergeVersion (o.map (fun x => x.version)) := by
  induction L generalizing o with
  | nil => rfl
  | cons m L ih => rw [List.foldl_cons, ih, mergeSlot_version, List.map_cons, List.foldl_cons]

theorem slotVersion_foldl_Update (L : List RaySyncMessage) (s : RaySyncer) (n : String) (c : Nat) :
    (L.foldl Update s).slotVersion n c =
      (appliedVersions L n c).foldl mergeVersion (s.slotVersion n c) := by
  unfold slotVersion appliedVersions
  rw [slot_foldl_Update, foldl_mergeSlot_version]
  rfl

theorem foldl_mergeVersion_some (vs : List Nat) (w : Nat) :
    vs.foldl mergeVersion (some w) = some (max w (maxVersion vs)) := by
  induction vs generalizing w with
  | nil => simp [maxVersion]
  | cons v vs ih =>
    rw [List.foldl_cons]
    by_cases h : v ≤ w
    · simp only [mergeVersion, ge_iff_le, h, if_true]
      rw [ih]
      simp only [maxVersion, List.foldr_cons]
      congr 1
      omega
    · simp only [mergeVersion, ge_iff_le, h, if_false]
      rw [ih]
      simp only [maxVersion, List.foldr_cons]
      congr 1
      omega

theorem foldl_mergeVersion_none (v : Nat) (vs : List Nat) :
    (v :: vs).foldl mergeVersion none = some (maxVersion (v :: vs)) := by
  rw [List.foldl_cons]
  show vs.foldl mergeVersion (some v) = _
  rw [foldl_mergeVersion_some]
  rfl

theorem foldl_mergeVersion_ge (vs : List Nat) (w : Nat) :
    ∃ w2, vs.foldl mergeVersion (some w) = some w2 ∧ w ≤ w2 := by
  refine ⟨_, foldl_mergeVersion_some vs w, ?_⟩
  omega

theorem appliedVersions_ne_nil (L : List RaySyncMessage) (n : String) (c : Nat)
    (h : ∃ a ∈ L, a.node_id = n ∧ a.component_id = c) : appliedVersions L n c ≠ [] := by
  obtain ⟨a, ha, hk⟩ := h
  intro hnil
  have hmem : a.version ∈ appliedVersions L n c := by
    unfold appliedVersions
    exact List.mem_map.mpr ⟨a, List.mem_filter.mpr ⟨ha, by simpa using hk⟩, rfl⟩
  rw [hnil] at hmem
  cases hmem

theorem appliedVersions_append (L M : List RaySyncMessage) (n : String) (c : Nat) :
    appliedVersions (L ++ M) n c = appliedVersions L n c ++ appliedVersions M n c := by
  simp [appliedVersions]

theorem slotVersion_empty_view (s0 : RaySyncer) (h0 : s0.cluster_view_ = fun _ => none)
    (n : String) (c : Nat) : s0.slotVersion n c = none := by
  simp [slotVersion, slot, h0]

/-- C2. Monotonicity of the merge. Start from an empty cluster view and make any
finite sequence `L` of `Update` calls. For every key `(n, c)`: one more call never
lowers the version held in the slot (a slot holding `v` holds some `v2 >= v`
afterwards), and once a message for the key is among the calls made, the slot's
version is the maximum of the versions of all messages passed so far for that key. -/
theorem Update_monotone (s0 : RaySyncer) (h0 : s0.cluster_view_ = fun _ => none)
    (L : List RaySyncMessage) (n : String) (c : Nat) :
    (∀ m v, (L.foldl Update s0).slotVersion n c = some v →
      ∃ v2, ((L ++ [m]).foldl Update s0).slotVersion n c = some v2 ∧ v ≤ v2) ∧
    ((∃ a ∈ L, a.node_id = n ∧ a.component_id = c) →
      (L.foldl Update s0).slotVersion n c = some (maxVersion (appliedVersions L n c))) := by
  constructor
  · intro m v hv
    rw [slotVersion_foldl_Update] at hv ⊢
    rw [appliedVersions_append, List.foldl_append, hv]
    exact foldl_mergeVersion_ge _ v
  · intro h
    rw [slotVersion_foldl_Update, slotVersion_empty_view s0 h0]
    have hne := appliedVersions_ne_nil L n c h
    cases hvs : appliedVersions L n c with
    | nil => exact absurd hvs hne
    | cons v vs => exact foldl_mergeVersion_none v vs

/-- C2, at a concrete sequence: versions 1, 3, 2 for the key `("B", 0)`; the slot
holds version 3 after the three calls and still holds at least 3 after a fourth. -/
theorem Update_monotone_witness :
    (∃ v2, (([(snapshot "B" 0 1 "x"), (snapshot "B" 0 3 "y"),
          (snapshot "B" 0 2 "z")] ++ [(snapshot "B" 0 1 "x")]).foldl
          Update empty).slotVersion "B" 0 = some v2 ∧ 3 ≤ v2) ∧
    ([(snapshot "B" 0 1 "x"), (snapshot "B" 0 3 "y"),
        (snapshot "B" 0 2 "z")].foldl Update empty).slotVersion "B" 0 = some 3 :=
  ⟨(Update_monotone empty rfl
      [(snapshot "B" 0 1 "x"), (snapshot "B" 0 3 "y"), (snapshot "B" 0 2 "z")]
      "B" 0).1 (snapshot "B" 0 1 "x") 3 (by decide),
   (Update_monotone empty rfl
      [(snapshot "B" 0 1 "x"), (snapshot "B" 0 3 "y"), (snapshot "B" 0 2 "z")]
      "B" 0).2 ⟨(snapshot "B" 0 1 "x"), by decide, by decide⟩⟩

/-! ### Order of a batch -/

theorem mergeVersion_comm (o : Option Nat) (a b : Nat) :
    mergeVersion (mergeVersion o a) b = mergeVersion (mergeVersion o b) a := by
  cases o with
  | none =>
    by_cases h1 : b ≤ a <;> by_cases h2 : a ≤ b <;> simp [mergeVersion, h1, h2] <;> omega
  | some w =>
    by_cases h1 : a ≤ w <;> by_cases h2 : b ≤ w <;> by_cases h3 : b ≤ a <;>
      by_cases h4 : a ≤ b <;> simp [mergeVersion, h1, h2, h3, h4] <;> omega

theorem mergeSlot_comm (o : Option RaySyncMessage) (a b : RaySyncMessage)
    (h : a.version = b.version → a = b) :
    mergeSlot (mergeSlot o a) b = mergeSlot (mergeSlot o b) a := by
  cases o with
  | none =>
    by_cases h1 : b.version ≤ a.version <;> by_cases h2 : a.version ≤ b.version
    · have := h (Nat.le_antisymm h2 h1)
      subst this
      rfl
    · simp [mergeSlot, h1, h2]
    · simp [mergeSlot, h1, h2]
    · omega
  | some w =>
    by_cases heq : a.version = b.version
    · obtain rfl : a = b := h heq
      rfl
    · by_cases h1 : a.version ≤ w.version <;> by_cases h2 : b.version ≤ w.version <;>
        by_cases h3 : b.version ≤ a.version <;> by_cases h4 : a.version ≤ b.version <;>
        first
          | omega
          | simp [mergeSlot, h1, h2, h3, h4]

theorem messagesFor_perm {L L2 : List RaySyncMessage} (hp : L.Perm L2) (n : String) (c : Nat) :
    (messagesFor L n c).Perm (messagesFor L2 n c) :=
  List.Perm.filter _ hp

theorem mem_messagesFor {L : List RaySyncMessage} {n : String} {c : Nat} {a : RaySyncMessage}
    (h : a ∈ messagesFor L n c) : a ∈ L ∧ a.node_id = n ∧ a.component_id = c := by
  unfold messagesFor at h
  have := List.mem_filter.mp h
  exact ⟨this.1, by simpa using this.2⟩

/-- C9, refuted as stated: a batch of two messages for the same key with the same
version and different payloads leaves a different message in the slot depending on
the order in which it is applied. -/
theorem UpdateMessages_perm_counterexample :
    ¬ ∀ (V : RaySyncer) (L L2 : RaySyncMessages), L.Perm L2 →
        ∀ n c, (V.UpdateMessages L).slot n c = (V.UpdateMessages L2).slot n c := by
  intro h
  have h1 := h empty [snapshot "B" 0 1 "x", snapshot "B" 0 1 "y"]
    [snapshot "B" 0 1 "y", snapshot "B" 0 1 "x"] (List.Perm.swap _ _ _) "B" 0
  revert h1
  decide

/-- C9, amended. For every cluster view `V`, batch `L` and permutation `L2` of `L`,
applying `L` and applying `L2` with `Update(RaySyncMessages)` leave the same version
in every slot; and when any two messages of `L` with the same
`(node_id, component_id)` and the same version are the same message, they leave the
same cluster view, that is the same message in every slot. -/
theorem UpdateMessages_perm (V : RaySyncer) (L L2 : RaySyncMessages) (hp : L.Perm L2) :
    (∀ n c, (V.UpdateMessages L).slotVersion n c = (V.UpdateMessages L2).slotVersion n c) ∧
    ((∀ a ∈ L, ∀ b ∈ L, a.node_id = b.node_id → a.component_id = b.component_id →
        a.version = b.version → a = b) →
      (V.UpdateMessages L).cluster_view_ = (V.UpdateMessages L2).cluster_view_) := by
  constructor
  · intro n c
    unfold UpdateMessages
    rw [slotVersion_foldl_Update, slotVersion_foldl_Update]
    have hperm : (appliedVersions L n c).Perm (appliedVersions L2 n c) :=
      List.Perm.map _ (List.Perm.filter _ hp)
    exact List.Perm.foldl_eq' hperm (fun x _ y _ z => mergeVersion_comm z x y) _
  · intro hL
    unfold UpdateMessages
    apply cluster_view_eq_of_slots
    · intro n
      rw [cluster_view_foldl_isSome, cluster_view_foldl_isSome]
      have hmem : n ∈ L.map (fun m => m.node_id) ↔ n ∈ L2.map (fun m => m.node_id) :=
        (List.Perm.map _ hp).mem_iff
      by_cases h1 : n ∈ L.map (fun m => m.node_id)
      · have h2 := hmem.mp h1
        rw [decide_eq_true h1, decide_eq_true h2]
      · have h2 : ¬ n ∈ L2.map (fun m => m.node_id) := fun h => h1 (hmem.mpr h)
        rw [decide_eq_false h1, decide_eq_false h2]
    · intro n c
      rw [slot_foldl_Update, slot_foldl_Update]
      refine List.Perm.foldl_eq' (messagesFor_perm hp n c) ?_ _
      intro x hx y hy z
      obtain ⟨hxL, hxn, hxc⟩ := mem_messagesFor hx
      obtain ⟨hyL, hyn, hyc⟩ := mem_messagesFor hy
      exact mergeSlot_comm z x y (hL x hxL y hyL (hxn.trans hyn.symm) (hxc.trans hyc.symm))

/-- C9 amended, at a concrete batch: versions 1 and 2 of one key and a message of
another node, applied in two orders. -/
theorem UpdateMessages_perm_witness :
    (empty.UpdateMessages [snapshot "B" 0 1 "x", snapshot "B" 0 2 "y", snapshot "C" 0 1 "z"]).cluster_view_
      = (empty.UpdateMessages
          [snapshot "B" 0 2 "y", snapshot "B" 0 1 "x", snapshot "C" 0 1 "z"]).cluster_view_ :=
  (UpdateMessages_perm empty
      [snapshot "B" 0 1 "x", snapshot "B" 0 2 "y", snapshot "C" 0 1 "z"]
      [snapshot "B" 0 2 "y", snapshot "B" 0 1 "x", snapshot "C" 0 1 "z"]
      (List.Perm.swap _ _ _)).2 (by decide)

/-! ### Local delivery -/

/-- C10. Receiver delivery, with the local delivery of `BroadcastMessage` taken from
the specification. `Register` stores the receiver under its component id. If
`Update(m)` accepts `m` (slot empty or stored version strictly smaller) and the
registry holds a receiver `r` for `m.component_id`, the invocations of
`Receiver::Update` during the call are exactly one, of `r` with `m`. If `m` is
discarded (stored version `>= m.version`), no receiver is invoked. -/
theorem Update_receiver (s : RaySyncer) (m : RaySyncMessage) :
    (∀ reporter receiver, (s.Register m.component_id reporter receiver).receivers_ m.component_id
        = receiver) ∧
    ((s.slot m.node_id m.component_id = none ∨
        ∃ cur, s.slot m.node_id m.component_id = some cur ∧ cur.version < m.version) →
      ∀ r, s.receivers_ m.component_id = some r → s.receiverCalls m = [(r, m)]) ∧
    ((∃ cur, s.slot m.node_id m.component_id = some cur ∧ m.version ≤ cur.version) →
      s.receiverCalls m = []) := by
  refine ⟨?_, ?_, ?_⟩
  · intro reporter receiver
    simp [Register]
  · intro h r hr
    have hacc : s.accepts m := by
      intro cur hcur
      rcases h with h | ⟨cur2, h2, hlt⟩
      · rw [h] at hcur; cases hcur
      · rw [h2] at hcur; cases hcur; exact hlt
    unfold receiverCalls
    rw [Update_of_fresh s m hacc]
    simp [BroadcastMessage_deliver, hr]
  · rintro ⟨cur, hcur, hle⟩
    unfold receiverCalls
    rw [Update_of_stale s m cur hcur hle]
    simp

/-- C10, at concrete inputs: a receiver registered for component 0 gets the first
message of node "B" once, and nothing when the same message arrives again. -/
theorem Update_receiver_witness :
    (empty.Register 0 (some 7) (some 8)).receiverCalls (snapshot "B" 0 1 "x")
        = [(8, snapshot "B" 0 1 "x")] ∧
    (((empty.Register 0 (some 7) (some 8)).Update (snapshot "B" 0 1 "x")).receiverCalls
        (snapshot "B" 0 1 "x")) = [] :=
  ⟨(Update_receiver (empty.Register 0 (some 7) (some 8)) (snapshot "B" 0 1 "x")).2.1
      (Or.inl (by decide)) 8 (by decide),
   (Update_receiver ((empty.Register 0 (some 7) (some 8)).Update (snapshot "B" 0 1 "x"))
      (snapshot "B" 0 1 "x")).2.2 ⟨snapshot "B" 0 1 "x", by decide, by decide⟩⟩

end RaySyncer

/-! ## Facts about the connection session -/

namespace NodeSyncContext

/-! ### The suppression table -/

theorem versionOf_GetNodeComponentVersions (s : NodeSyncContext) (node_id n : String) (c : Nat) :
    (s.GetNodeComponentVersions node_id).versionOf n c = s.versionOf n c := by
  unfold GetNodeComponentVersions
  cases h : s.node_versions_ node_id with
  | some arr => rfl
  | none =>
    unfold versionOf
    by_cases hn : n = node_id
    · subst hn; simp [h]
    · simp [hn]

theorem versionOf_setVersion (s : NodeSyncContext) (node_id : String) (component_id v : Nat)
    (n : String) (c : Nat) :
    (s.setVersion node_id component_id v).versionOf n c =
      if n = node_id ∧ c = component_id then v else s.versionOf n c := by
  unfold setVersion
  by_cases hn : n = node_id
  · subst hn
    by_cases hc : c = component_id <;> simp [versionOf, hc]
  · simp [versionOf, hn]

theorem GetNodeComponentVersions_fields (s : NodeSyncContext) (node_id : String) :
    (s.GetNodeComponentVersions node_id).out_buffer_ = s.out_buffer_ ∧
    (s.GetNodeComponentVersions node_id).out_message_ = s.out_message_ ∧
    (s.GetNodeComponentVersions node_id).consumed_messages_ = s.consumed_messages_ ∧
    (s.GetNodeComponentVersions node_id).calls = s.calls := by
  unfold GetNodeComponentVersions
  cases s.node_versions_ node_id <;> exact ⟨rfl, rfl, rfl, rfl⟩

/-! ### The enqueue step of `Update` -/

theorem enqueue_of_fresh (s : NodeSyncContext) (m : RaySyncMessage)
    (h : s.versionOf m.node_id m.component_id < m.version) :
    s.enqueue m =
      ({ s.GetNodeComponentVersions m.node_id with
          out_buffer_ := (s.GetNodeComponentVersions m.node_id).out_buffer_ ++ [m] }).setVersion
        m.node_id m.component_id m.version := by
  unfold enqueue
  simp only [versionOf_GetNodeComponentVersions, h, if_true]

theorem enqueue_of_stale (s : NodeSyncContext) (m : RaySyncMessage)
    (h : ¬ s.versionOf m.node_id m.component_id < m.version) :
    s.enqueue m = s.GetNodeComponentVersions m.node_id := by
  unfold enqueue
  simp only [versionOf_GetNodeComponentVersions, h, if_false]

theorem enqueue_out_buffer (s : NodeSyncContext) (m : RaySyncMessage) :
    (s.enqueue m).out_buffer_ =
      if s.versionOf m.node_id m.component_id < m.version then s.out_buffer_ ++ [m]
      else s.out_buffer_ := by
  by_cases h : s.versionOf m.node_id m.component_id < m.version
  · rw [enqueue_of_fresh s m h, if_pos h]
    show (s.GetNodeComponentVersions m.node_id).out_buffer_ ++ [m] = _
    rw [(GetNodeComponentVersions_fields s m.node_id).1]
  · rw [enqueue_of_stale s m h, if_neg h, (GetNodeComponentVersions_fields s m.node_id).1]

theorem enqueue_fields (s : NodeSyncContext) (m : RaySyncMessage) :
    (s.enqueue m).out_message_ = s.out_message_ ∧
    (s.enqueue m).consumed_messages_ = s.consumed_messages_ ∧
    (s.enqueue m).calls = s.calls := by
  have hg := GetNodeComponentVersions_fields s m.node_id
  by_cases h : s.versionOf m.node_id m.component_id < m.version
  · rw [enqueue_of_fresh s m h]
    exact ⟨hg.2.1, hg.2.2.1, hg.2.2.2⟩
  · rw [enqueue_of_stale s m h]
    exact ⟨hg.2.1, hg.2.2.1, hg.2.2.2⟩

theorem versionOf_enqueue (s : NodeSyncContext) (m : RaySyncMessage) (n : String) (c : Nat) :
    (s.enqueue m).versionOf n c =
      if (n = m.node_id ∧ c = m.component_id) ∧ s.versionOf m.node_id m.component_id < m.version
      then m.version else s.versionOf n c := by
  by_cases h : s.versionOf m.node_id m.component_id < m.version
  · rw [enqueue_of_fresh s m h, versionOf_setVersion]
    have : ∀ t : NodeSyncContext, ∀ q, ({ t with out_buffer_ := q } : NodeSyncContext).versionOf n c
        = t.versionOf n c := fun _ _ => rfl
    rw [this, versionOf_GetNodeComponentVersions]
    simp [h]
  · rw [enqueue_of_stale s m h, versionOf_GetNodeComponentVersions]
    simp [h]

/-! ### `SendNextMessage` -/

theorem versionOf_SendNextMessage (s : NodeSyncContext) (n : String) (c : Nat) :
    s.SendNextMessage.versionOf n c = s.versionOf n c := by
  unfold SendNextMessage
  by_cases h : s.out_buffer_.drop s.consumed_messages_ = [] <;> simp [h, versionOf]

theorem SendNextMessage_out_buffer (s : NodeSyncContext) :
    s.SendNextMessage.out_buffer_ = s.out_buffer_.drop s.consumed_messages_ := by
  unfold SendNextMessage
  by_cases h : s.out_buffer_.drop s.consumed_messages_ = [] <;> simp [h]

theorem versionOf_Update (s : NodeSyncContext) (m : RaySyncMessage) (n : String) (c : Nat) :
    (s.Update m).versionOf n c = (s.enqueue m).versionOf n c := by
  unfold Update
  by_cases h : (s.enqueue m).out_message_ = none
  · simp only [h, if_true, versionOf_SendNextMessage]
  · simp only [h, if_false]

theorem Update_out_buffer (s : NodeSyncContext) (m : RaySyncMessage) :
    (s.Update m).out_buffer_ =
      if s.out_message_ = none then (s.enqueue m).out_buffer_.drop s.consumed_messages_
      else (s.enqueue m).out_buffer_ := by
  have hf := enqueue_fields s m
  unfold Update
  by_cases h : s.out_message_ = none
  · rw [if_pos (hf.1.trans h), if_pos h, SendNextMessage_out_buffer, hf.2.1]
  · rw [if_neg (by rw [hf.1]; exact h), if_neg h]

/-! ### Enqueue suppression -/

/-- What `Update(m)` does to the table and the queue. In every state the table entry
of `(m.node_id, m.component_id)` becomes `m.version` when `m.version` is strictly
greater than the entry before the call (an entry never written reads 0), otherwise
the whole table is unchanged; entries of other keys are unchanged. When a write is
in flight or the consumed count is 0, so that the erase of line 182 removes nothing,
the queue gets `m` appended in the first case and is unchanged in the second. -/
theorem Update_table_and_queue (s : NodeSyncContext) (m : RaySyncMessage) :
    (s.versionOf m.node_id m.component_id < m.version →
      (s.Update m).versionOf m.node_id m.component_id = m.version) ∧
    (¬ s.versionOf m.node_id m.component_id < m.version →
      ∀ n c, (s.Update m).versionOf n c = s.versionOf n c) ∧
    (∀ n c, ¬ (n = m.node_id ∧ c = m.component_id) →
      (s.Update m).versionOf n c = s.versionOf n c) ∧
    ((s.out_message_ ≠ none ∨ s.consumed_messages_ = 0) →
      (s.versionOf m.node_id m.component_id < m.version →
        (s.Update m).out_buffer_ = s.out_buffer_ ++ [m]) ∧
      (¬ s.versionOf m.node_id m.component_id < m.version →
        (s.Update m).out_buffer_ = s.out_buffer_)) := by
  refine ⟨?_, ?_, ?_, ?_⟩
  · intro h
    rw [versionOf_Update, versionOf_enqueue]
    simp [h]
  · intro h n c
    rw [versionOf_Update, versionOf_enqueue]
    simp [h]
  · intro n c hne
    rw [versionOf_Update, versionOf_enqueue]
    simp [hne]
  · intro hs
    have hq : (s.Update m).out_buffer_ = (s.enqueue m).out_buffer_ := by
      rw [Update_out_buffer]
      rcases hs with hs | hs
      · rw [if_neg hs]
      · rw [hs, List.drop_zero, ite_self]
    rw [hq, enqueue_out_buffer]
    constructor
    · intro h; rw [if_pos h]
    · intro h; rw [if_neg h]

/-- C4, the failing call. The session is in the state reached from the initial state
by `Update` of version 1 of node "A" and the completion of its write: queue empty, no
write in flight, `consumed_messages_` still 1. `Update` of version 1 of node "B" finds
the table entry of its key at 0, so the message is to be appended and the entry set;
the entry is set to 1, but the queue after the call is empty instead of holding the
message at its end. -/
theorem Update_enqueue_fails :
    afterFirstWrite.out_buffer_ = [] ∧
    afterFirstWrite.versionOf "B" 0 < (snapshot "B" 0 1 "y").version ∧
    (afterFirstWrite.Update (snapshot "B" 0 1 "y")).versionOf "B" 0 = 1 ∧
    (afterFirstWrite.Update (snapshot "B" 0 1 "y")).out_buffer_ = [] ∧
    (afterFirstWrite.Update (snapshot "B" 0 1 "y")).out_buffer_ ≠
      afterFirstWrite.out_buffer_ ++ [snapshot "B" 0 1 "y"] := by
  decide

/-! ### Coalescing -/

theorem coalesceLoop_filter (l : List RaySyncMessage) (inserted : List String)
    (batch : RaySyncMessages) (n : String) :
    (coalesceLoop l inserted batch).filter (fun m => m.node_id = n) =
      batch.filter (fun m => m.node_id = n) ++
        (if n ∈ inserted then [] else ((l.filter (fun m => m.node_id = n)).head?).toList) := by
  induction l generalizing inserted batch with
  | nil => simp [coalesceLoop]
  | cons m rest ih =>
    unfold coalesceLoop
    by_cases hm : m.node_id ∈ inserted
    · rw [if_pos hm, ih]
      by_cases hn : n ∈ inserted
      · rw [if_pos hn, if_pos hn]
      · rw [if_neg hn, if_neg hn]
        have hne : ¬ m.node_id = n := fun h => hn (h ▸ hm)
        rw [List.filter_cons_of_neg (by simpa using hne)]
    · rw [if_neg hm, ih]
      by_cases hmn : m.node_id = n
      · subst hmn
        rw [if_pos (List.mem_cons_self _ _), if_neg hm]
        rw [List.filter_append, List.filter_cons_of_pos (by simp),
          List.filter_cons_of_pos (by simp)]
        simp
      · have hn2 : n ∈ m.node_id :: inserted ↔ n ∈ inserted := by
          simp [List.mem_cons, Ne.symm hmn]
        rw [List.filter_append, List.filter_cons_of_neg (by simpa using hmn),
          List.filter_cons_of_neg (by simpa using hmn)]
        by_cases hn : n ∈ inserted
        · rw [if_pos (hn2.mpr hn), if_pos hn]; simp
        · rw [if_neg (fun h => hn (hn2.mp h)), if_neg hn]; simp

/-- The batch restricted to one node id: the last queued message of that node, if
the node occurs in the queue. -/
theorem coalesce_filter (q : List RaySyncMessage) (n : String) :
    (coalesce q).filter (fun m => m.node_id = n) =
      ((q.filter (fun m => m.node_id = n)).getLast?).toList := by
  unfold coalesce
  rw [coalesceLoop_filter]
  simp [List.filter_reverse, List.head?_reverse]

theorem mem_of_mem_coalesce {q : List RaySyncMessage} {m : RaySyncMessage}
    (h : m ∈ coalesce q) : m ∈ q := by
  have h1 : m ∈ (coalesce q).filter (fun x => x.node_id = m.node_id) :=
    List.mem_filter.mpr ⟨h, by simp⟩
  rw [coalesce_filter] at h1
  cases hl : (q.filter (fun x => x.node_id = m.node_id)).getLast? with
  | none => rw [hl] at h1; cases h1
  | some x =>
    rw [hl] at h1
    have hx : m = x := by simpa using h1
    subst hx
    exact (List.mem_filter.mp (List.mem_of_getLast?_eq_some hl)).1

theorem SendNextMessage_of_pending (s : NodeSyncContext) (hq : s.pending ≠ []) :
    s.SendNextMessage =
      { s with
        out_buffer_ := s.pending
        out_message_ := some (coalesce s.pending)
        consumed_messages_ := s.pending.length
        calls := s.calls ++ [Call.StartWrite (coalesce s.pending)] } := by
  unfold pending at hq ⊢
  unfold SendNextMessage
  simp only [hq, if_false]

theorem SendNextMessage_of_no_pending (s : NodeSyncContext) (hq : s.pending = []) :
    s.SendNextMessage = { s with out_buffer_ := [], out_message_ := none } := by
  unfold pending at hq
  unfold SendNextMessage
  simp only [hq, if_true]

/-- C5. Coalescing. Let the queue left after the consumed entries are removed be
non-empty. `SendNextMessage` hands to `StartWrite` the batch `coalesce` of that queue
and keeps it in `out_message_`. For each node id occurring in the queue the batch
holds exactly one message of that node id, the last one in queue order; every
message of the batch is such a last message, so the batch holds nothing else. In
particular, when the queued messages of node `X` have versions `v1 < v2 < v3` in
that order, the batch holds one message of `X`, of version `v3`. -/
theorem SendNextMessage_coalesces (s : NodeSyncContext) (hq : s.pending ≠ []) :
    s.SendNextMessage.out_message_ = some (coalesce s.pending) ∧
    s.SendNextMessage.calls = s.calls ++ [Call.StartWrite (coalesce s.pending)] ∧
    (∀ n, n ∈ s.pending.map (fun m => m.node_id) →
      ∃ last, (s.pending.filter (fun m => m.node_id = n)).getLast? = some last ∧
        (coalesce s.pending).filter (fun m => m.node_id = n) = [last]) ∧
    (∀ m ∈ coalesce s.pending,
      (s.pending.filter (fun x => x.node_id = m.node_id)).getLast? = some m) ∧
    (∀ X v1 v2 v3, v1 < v2 → v2 < v3 →
      (s.pending.filter (fun m => m.node_id = X)).map (fun m => m.version) = [v1, v2, v3] →
      ((coalesce s.pending).filter (fun m => m.node_id = X)).map (fun m => m.version) = [v3]) := by
  rw [SendNextMessage_of_pending s hq]
  refine ⟨rfl, rfl, ?_, ?_, ?_⟩
  · intro n hn
    obtain ⟨a, ha, han⟩ := List.mem_map.mp hn
    have hmem : a ∈ s.pending.filter (fun m => m.node_id = n) :=
      List.mem_filter.mpr ⟨ha, by simpa using han⟩
    cases hl : (s.pending.filter (fun m => m.node_id = n)).getLast? with
    | none =>
      rw [List.getLast?_eq_none_iff] at hl
      rw [hl] at hmem
      cases hmem
    | some last =>
      refine ⟨last, rfl, ?_⟩
      rw [coalesce_filter, hl]
      rfl
  · intro m hm
    have h1 : m ∈ (coalesce s.pending).filter (fun x => x.node_id = m.node_id) :=
      List.mem_filter.mpr ⟨hm, by simp⟩
    rw [coalesce_filter] at h1
    cases hl : (s.pending.filter (fun x => x.node_id = m.node_id)).getLast? with
    | none => rw [hl] at h1; cases h1
    | some x =>
      rw [hl] at h1
      have hx : m = x := by simpa using h1
      rw [hx]
  · intro X v1 v2 v3 _ _ hv
    rw [coalesce_filter]
    generalize s.pending.filter (fun m => m.node_id = X) = l at hv
    match l, hv with
    | [a, b, c], hv =>
      simp only [List.map_cons, List.map_nil, List.cons.injEq, and_true] at hv
      simp [hv.2.2]

/-- C5, at a concrete session: behind a write in flight the queue holds versions 2, 3
and 4 of node "X" and one message of node "Y"; the next batch holds version 4 of "X"
only, after the message of "Y". -/
theorem SendNextMessage_coalesces_witness :
    threeQueued.SendNextMessage.out_message_ =
      some [snapshot "X" 0 4 "e", snapshot "Y" 0 1 "c"] ∧
    ((coalesce threeQueued.pending).filter (fun m => m.node_id = "X")).map (fun m => m.version)
      = [4] :=
  ⟨((SendNextMessage_coalesces threeQueued (by decide)).1).trans (by decide),
   (SendNextMessage_coalesces threeQueued (by decide)).2.2.2.2 "X" 2 3 4 (by decide) (by decide)
    (by decide)⟩

/-! ### The read path -/

theorem GetNodeComponentVersions_isSome (s : NodeSyncContext) (node_id n : String) :
    ((s.GetNodeComponentVersions node_id).node_versions_ n).isSome =
      (decide (n = node_id) || (s.node_versions_ n).isSome) := by
  unfold GetNodeComponentVersions
  cases h : s.node_versions_ node_id with
  | some arr =>
    by_cases hn : n = node_id
    · subst hn; simp [h]
    · simp [hn]
  | none =>
    by_cases hn : n = node_id <;> simp [hn]

theorem GetNodeComponentVersions_of_isSome (s : NodeSyncContext) (node_id : String)
    (h : (s.node_versions_ node_id).isSome = true) : s.GetNodeComponentVersions node_id = s := by
  unfold GetNodeComponentVersions
  cases hv : s.node_versions_ node_id with
  | some arr => rfl
  | none => rw [hv] at h; cases h

theorem setVersion_isSome (s : NodeSyncContext) (node_id : String) (c v : Nat) (n : String) :
    ((s.setVersion node_id c v).node_versions_ n).isSome =
      (decide (n = node_id) || (s.node_versions_ n).isSome) := by
  unfold setVersion
  by_cases hn : n = node_id <;> simp [hn]

theorem recordReceived_isSome (s : NodeSyncContext) (m : RaySyncMessage) (n : String) :
    ((s.recordReceived m).node_versions_ n).isSome =
      (decide (n = m.node_id) || (s.node_versions_ n).isSome) := by
  unfold recordReceived
  by_cases h : (s.GetNodeComponentVersions m.node_id).versionOf m.node_id m.component_id < m.version
  · simp only [h, if_true, setVersion_isSome, GetNodeComponentVersions_isSome]
    by_cases hn : n = m.node_id <;> simp [hn]
  · simp only [h, if_false, GetNodeComponentVersions_isSome]

theorem versionOf_recordReceived (s : NodeSyncContext) (m : RaySyncMessage) (n : String) (c : Nat) :
    (s.recordReceived m).versionOf n c =
      if (n = m.node_id ∧ c = m.component_id) ∧ s.versionOf m.node_id m.component_id < m.version
      then m.version else s.versionOf n c := by
  unfold recordReceived
  by_cases h : s.versionOf m.node_id m.component_id < m.version
  · simp only [versionOf_GetNodeComponentVersions, h, if_true, versionOf_setVersion]
    simp
  · simp only [versionOf_GetNodeComponentVersions, h, if_false]
    simp

theorem versionOf_le_recordReceived (s : NodeSyncContext) (m : RaySyncMessage) (n : String)
    (c : Nat) : s.versionOf n c ≤ (s.recordReceived m).versionOf n c := by
  rw [versionOf_recordReceived]
  by_cases h : (n = m.node_id ∧ c = m.component_id) ∧ s.versionOf m.node_id m.component_id < m.version
  · rw [if_pos h]
    obtain ⟨⟨rfl, rfl⟩, hlt⟩ := h
    omega
  · rw [if_neg h]

theorem version_le_recordReceived (s : NodeSyncContext) (m : RaySyncMessage) :
    m.version ≤ (s.recordReceived m).versionOf m.node_id m.component_id := by
  rw [versionOf_recordReceived]
  by_cases h : s.versionOf m.node_id m.component_id < m.version
  · simp [h]
  · simp only [h, and_false, if_false]
    omega

theorem recordReceived_fields (s : NodeSyncContext) (m : RaySyncMessage) :
    (s.recordReceived m).out_buffer_ = s.out_buffer_ ∧
    (s.recordReceived m).out_message_ = s.out_message_ ∧
    (s.recordReceived m).consumed_messages_ = s.consumed_messages_ ∧
    (s.recordReceived m).calls = s.calls := by
  have hg := GetNodeComponentVersions_fields s m.node_id
  unfold recordReceived
  by_cases h : (s.GetNodeComponentVersions m.node_id).versionOf m.node_id m.component_id < m.version
  · simp only [h, if_true]; exact hg
  · simp only [h, if_false]; exact hg

theorem foldl_recordReceived_fields (B : List RaySyncMessage) (s : NodeSyncContext) :
    (B.foldl recordReceived s).out_buffer_ = s.out_buffer_ ∧
    (B.foldl recordReceived s).out_message_ = s.out_message_ ∧
    (B.foldl recordReceived s).consumed_messages_ = s.consumed_messages_ ∧
    (B.foldl recordReceived s).calls = s.calls := by
  induction B generalizing s with
  | nil => exact ⟨rfl, rfl, rfl, rfl⟩
  | cons b B ih =>
    rw [List.foldl_cons]
    have h1 := ih (s.recordReceived b)
    have h2 := recordReceived_fields s b
    exact ⟨h1.1.trans h2.1, h1.2.1.trans h2.2.1, h1.2.2.1.trans h2.2.2.1,
      h1.2.2.2.trans h2.2.2.2⟩

theorem versionOf_le_foldl_recordReceived (B : List RaySyncMessage) (s : NodeSyncContext)
    (n : String) (c : Nat) : s.versionOf n c ≤ (B.foldl recordReceived s).versionOf n c := by
  induction B generalizing s with
  | nil => exact Nat.le_refl _
  | cons b B ih =>
    rw [List.foldl_cons]
    exact Nat.le_trans (versionOf_le_recordReceived s b n c) (ih _)

theorem isSome_foldl_recordReceived (B : List RaySyncMessage) (s : NodeSyncContext) (n : String)
    (h : (s.node_versions_ n).isSome = true) :
    ((B.foldl recordReceived s).node_versions_ n).isSome = true := by
  induction B generalizing s with
  | nil => exact h
  | cons b B ih =>
    rw [List.foldl_cons]
    apply ih
    rw [recordReceived_isSome, h, Bool.or_true]

/-- After the loop of `OnReadDone` every message of the batch has its node in the
table with an entry at least its version. -/
theorem foldl_recordReceived_covers (B : List RaySyncMessage) (s : NodeSyncContext)
    (b : RaySyncMessage) (hb : b ∈ B) :
    ((B.foldl recordReceived s).node_versions_ b.node_id).isSome = true ∧
    b.version ≤ (B.foldl recordReceived s).versionOf b.node_id b.component_id := by
  induction B generalizing s with
  | nil => cases hb
  | cons x B ih =>
    rw [List.foldl_cons]
    rcases List.mem_cons.mp hb with rfl | hmem
    · constructor
      · apply isSome_foldl_recordReceived
        rw [recordReceived_isSome]
        simp
      · exact Nat.le_trans (version_le_recordReceived s b)
          (versionOf_le_foldl_recordReceived B _ _ _)
    · exact ih _ hmem

theorem OnReadDone_true (s : NodeSyncContext) :
    s.OnReadDone true =
      { s.in_message_.foldl recordReceived s with
        in_message_ := []
        calls := (s.in_message_.foldl recordReceived s).calls ++
          [Call.InstanceUpdate s.in_message_, Call.StartRead] } := by
  unfold OnReadDone
  simp only [if_true]

theorem enqueue_of_known (s : NodeSyncContext) (m : RaySyncMessage)
    (h1 : (s.node_versions_ m.node_id).isSome = true)
    (h2 : m.version ≤ s.versionOf m.node_id m.component_id) : s.enqueue m = s := by
  rw [enqueue_of_stale s m (Nat.not_lt.mpr h2)]
  exact GetNodeComponentVersions_of_isSome s m.node_id h1

theorem readCompleted_covers (s : NodeSyncContext) (B : RaySyncMessages) (b : RaySyncMessage)
    (hb : b ∈ B) :
    (((s.readCompleted B).node_versions_ b.node_id).isSome = true) ∧
    b.version ≤ (s.readCompleted B).versionOf b.node_id b.component_id := by
  unfold readCompleted
  rw [OnReadDone_true]
  exact foldl_recordReceived_covers B _ b hb

theorem enqueue_isSome (s : NodeSyncContext) (m : RaySyncMessage) (n : String)
    (h : (s.node_versions_ n).isSome = true) : ((s.enqueue m).node_versions_ n).isSome = true := by
  by_cases hf : s.versionOf m.node_id m.component_id < m.version
  · rw [enqueue_of_fresh s m hf, setVersion_isSome]
    show (decide (n = m.node_id) || ((s.GetNodeComponentVersions m.node_id).node_versions_ n).isSome)
      = true
    rw [GetNodeComponentVersions_isSome, h]
    simp
  · rw [enqueue_of_stale s m hf, GetNodeComponentVersions_isSome, h]
    simp

theorem SendNextMessage_node_versions (s : NodeSyncContext) :
    s.SendNextMessage.node_versions_ = s.node_versions_ := by
  unfold SendNextMessage
  by_cases h : s.out_buffer_.drop s.consumed_messages_ = [] <;> simp [h]

theorem step_keeps_known (s : NodeSyncContext) (e : Event) (n : String) (c : Nat)
    (h : (s.node_versions_ n).isSome = true) :
    ((s.step e).node_versions_ n).isSome = true ∧ s.versionOf n c ≤ (s.step e).versionOf n c := by
  cases e with
  | Enqueue m0 =>
    show ((s.Update m0).node_versions_ n).isSome = true ∧ _ ≤ (s.Update m0).versionOf n c
    refine ⟨?_, ?_⟩
    · unfold Update
      by_cases hm : (s.enqueue m0).out_message_ = none
      · rw [if_pos hm, SendNextMessage_node_versions]
        exact enqueue_isSome s m0 n h
      · rw [if_neg hm]
        exact enqueue_isSome s m0 n h
    · rw [versionOf_Update, versionOf_enqueue]
      by_cases hk : (n = m0.node_id ∧ c = m0.component_id) ∧
          s.versionOf m0.node_id m0.component_id < m0.version
      · rw [if_pos hk]
        obtain ⟨⟨rfl, rfl⟩, hlt⟩ := hk
        omega
      · rw [if_neg hk]
  | ReadDone B =>
    show ((s.readCompleted B).node_versions_ n).isSome = true ∧ _ ≤ (s.readCompleted B).versionOf n c
    refine ⟨?_, ?_⟩
    · unfold readCompleted
      rw [OnReadDone_true]
      exact isSome_foldl_recordReceived B ({ s with in_message_ := B }) n h
    · unfold readCompleted
      rw [OnReadDone_true]
      exact versionOf_le_foldl_recordReceived B ({ s with in_message_ := B }) n c
  | WriteDone =>
    show (s.SendNextMessage.node_versions_ n).isSome = true ∧ _ ≤ s.SendNextMessage.versionOf n c
    rw [SendNextMessage_node_versions, versionOf_SendNextMessage]
    exact ⟨h, Nat.le_refl _⟩

theorem run_keeps_known (es : List Event) (s : NodeSyncContext) (n : String) (c : Nat)
    (h : (s.node_versions_ n).isSome = true) :
    ((s.run es).node_versions_ n).isSome = true ∧ s.versionOf n c ≤ (s.run es).versionOf n c := by
  induction es generalizing s with
  | nil => exact ⟨h, Nat.le_refl _⟩
  | cons e es ih =>
    have h1 := step_keeps_known s e n c h
    have h2 := ih (s.step e) h1.1
    exact ⟨h2.1, Nat.le_trans h1.2 h2.2⟩

/-- C7. No echo. Let `OnReadDone(true)` process a received batch `B`, and let any
further events of the session follow (none, for the call made right after the
handler). A call of `Update` with a message `m` that has the key of some message `b`
of `B` and a version at most that of `b` (in particular with `b` itself) appends
nothing to the outbound queue: the enqueue step (suppression check, `push_back`,
table write) leaves the state as it is, so the call does only what a send attempt
without a new message does, and the queue after the call is the queue before it
with at most its consumed entries removed from the front. -/
theorem OnReadDone_no_echo (s : NodeSyncContext) (B : RaySyncMessages) (b m : RaySyncMessage)
    (es : List Event)
    (hb : b ∈ B) (hn : m.node_id = b.node_id) (hc : m.component_id = b.component_id)
    (hv : m.version ≤ b.version) :
    ((s.readCompleted B).run es).enqueue m = (s.readCompleted B).run es ∧
    ((s.readCompleted B).run es).Update m =
      (if ((s.readCompleted B).run es).out_message_ = none then
        ((s.readCompleted B).run es).SendNextMessage
       else (s.readCompleted B).run es) ∧
    ∃ k, (((s.readCompleted B).run es).Update m).out_buffer_ =
      ((s.readCompleted B).run es).out_buffer_.drop k := by
  have hcov := readCompleted_covers s B b hb
  rw [← hn, ← hc] at hcov
  have hrun := run_keeps_known es (s.readCompleted B) m.node_id m.component_id hcov.1
  generalize (s.readCompleted B).run es = t at hrun ⊢
  have henq : t.enqueue m = t :=
    enqueue_of_known _ m hrun.1 (Nat.le_trans hv (Nat.le_trans hcov.2 hrun.2))
  have hupd : t.Update m = (if t.out_message_ = none then t.SendNextMessage else t) := by
    unfold Update
    rw [henq]
  refine ⟨henq, hupd, ?_⟩
  rw [hupd]
  by_cases h : t.out_message_ = none
  · rw [if_pos h]
    exact ⟨_, SendNextMessage_out_buffer _⟩
  · rw [if_neg h]
    exact ⟨0, rfl⟩

/-- C7, at a concrete session: version 3 of node "B" is received over a connection
whose write of node "A" is in flight; `Update` with version 2 of the same key leaves
the queue as it is. -/
theorem OnReadDone_no_echo_witness :
    (((((init true).Update (snapshot "A" 0 1 "x")).readCompleted [snapshot "B" 0 3 "y"]).run
        []).Update (snapshot "B" 0 2 "z")).out_buffer_ = [snapshot "A" 0 1 "x"] :=
  ((OnReadDone_no_echo ((init true).Update (snapshot "A" 0 1 "x")) [snapshot "B" 0 3 "y"]
      (snapshot "B" 0 3 "y") (snapshot "B" 0 2 "z") [] (by decide) rfl rfl (by decide)).2.1
    ▸ (by decide))

/-! ### Executions of one session -/

theorem run_append_singleton (s : NodeSyncContext) (es : List Event) (e : Event) :
    s.run (es ++ [e]) = (s.run es).step e := by
  simp [run, List.foldl_append]

theorem writes_append_StartWrite (calls : List Call) (b : RaySyncMessages) :
    (calls ++ [Call.StartWrite b]).filterMap
        (fun c => match c with | Call.StartWrite b => some b | _ => none) =
      calls.filterMap (fun c => match c with | Call.StartWrite b => some b | _ => none) ++ [b] := by
  simp [List.filterMap_append]

theorem writes_SendNextMessage (s : NodeSyncContext) :
    s.SendNextMessage.writes = s.writes ∨
      (s.pending ≠ [] ∧ s.SendNextMessage.writes = s.writes ++ [coalesce s.pending]) := by
  by_cases hq : s.pending = []
  · left
    rw [SendNextMessage_of_no_pending s hq]
    rfl
  · right
    refine ⟨hq, ?_⟩
    rw [SendNextMessage_of_pending s hq]
    exact writes_append_StartWrite s.calls _

theorem mem_of_mem_pending {s : NodeSyncContext} {m : RaySyncMessage} (h : m ∈ s.pending) :
    m ∈ s.out_buffer_ :=
  List.mem_of_mem_drop h

/-- A property of all queued and all written messages survives `SendNextMessage`. -/
theorem SendNextMessage_preserves (P : RaySyncMessage → Prop) (s : NodeSyncContext)
    (hq : ∀ m ∈ s.out_buffer_, P m) (hw : ∀ batch ∈ s.writes, ∀ m ∈ batch, P m) :
    (∀ m ∈ s.SendNextMessage.out_buffer_, P m) ∧
    (∀ batch ∈ s.SendNextMessage.writes, ∀ m ∈ batch, P m) := by
  constructor
  · intro m hm
    rw [SendNextMessage_out_buffer] at hm
    exact hq m (List.mem_of_mem_drop hm)
  · intro batch hb m hm
    rcases writes_SendNextMessage s with h | ⟨_, h⟩
    · rw [h] at hb; exact hw batch hb m hm
    · rw [h] at hb
      rcases List.mem_append.mp hb with hb | hb
      · exact hw batch hb m hm
      · have : batch = coalesce s.pending := by simpa using hb
        subst this
        exact hq m (mem_of_mem_pending (mem_of_mem_coalesce hm))

theorem writes_enqueue (s : NodeSyncContext) (m : RaySyncMessage) :
    (s.enqueue m).writes = s.writes := by
  unfold writes
  rw [(enqueue_fields s m).2.2]

theorem Update_preserves (P : RaySyncMessage → Prop) (s : NodeSyncContext) (m0 : RaySyncMessage)
    (hq : ∀ m ∈ (s.enqueue m0).out_buffer_, P m) (hw : ∀ batch ∈ s.writes, ∀ m ∈ batch, P m) :
    (∀ m ∈ (s.Update m0).out_buffer_, P m) ∧
    (∀ batch ∈ (s.Update m0).writes, ∀ m ∈ batch, P m) := by
  have hw2 : ∀ batch ∈ (s.enqueue m0).writes, ∀ m ∈ batch, P m := by
    rw [writes_enqueue]; exact hw
  unfold Update
  by_cases h : (s.enqueue m0).out_message_ = none
  · rw [if_pos h]
    exact SendNextMessage_preserves P _ hq hw2
  · rw [if_neg h]
    exact ⟨hq, hw2⟩

theorem readCompleted_fields (s : NodeSyncContext) (B : RaySyncMessages) :
    (s.readCompleted B).out_buffer_ = s.out_buffer_ ∧ (s.readCompleted B).writes = s.writes := by
  unfold readCompleted
  rw [OnReadDone_true]
  have hf := foldl_recordReceived_fields B ({ s with in_message_ := B })
  refine ⟨hf.1, ?_⟩
  show List.filterMap _ (_ ++ _) = _
  rw [hf.2.2.2]
  simp [writes, List.filterMap_append]

theorem versionOf_le_readCompleted (s : NodeSyncContext) (B : RaySyncMessages) (n : String)
    (c : Nat) : s.versionOf n c ≤ (s.readCompleted B).versionOf n c := by
  unfold readCompleted
  rw [OnReadDone_true]
  exact versionOf_le_foldl_recordReceived B ({ s with in_message_ := B }) n c

theorem versionOf_le_Update (s : NodeSyncContext) (m : RaySyncMessage) (n : String) (c : Nat) :
    s.versionOf n c ≤ (s.Update m).versionOf n c := by
  rw [versionOf_Update, versionOf_enqueue]
  by_cases h : (n = m.node_id ∧ c = m.component_id) ∧ s.versionOf m.node_id m.component_id < m.version
  · rw [if_pos h]
    obtain ⟨⟨rfl, rfl⟩, hlt⟩ := h
    omega
  · rw [if_neg h]

theorem received_append_singleton (es : List Event) (e : Event) :
    received (es ++ [e]) =
      received es ++ (match e with | Event.ReadDone batch => batch | _ => []) := by
  simp [received]

theorem enqueuedFresh_append (es : List Event) (e : Event) (m : RaySyncMessage)
    (h : enqueuedFresh es m) : enqueuedFresh (es ++ [e]) m := by
  obtain ⟨before, after, heq, hfresh⟩ := h
  exact ⟨before, after ++ [e], by rw [heq]; simp, hfresh⟩

/-- The invariant of an execution from the initial state: every queued message and
every message of a written batch was fresh when it was enqueued, and the table
entry of every received message is at least its version. -/
theorem run_invariant (kIsServer : Bool) (es : List Event) :
    (∀ m ∈ ((init kIsServer).run es).out_buffer_, enqueuedFresh es m) ∧
    (∀ batch ∈ ((init kIsServer).run es).writes, ∀ m ∈ batch, enqueuedFresh es m) ∧
    (∀ r ∈ received es,
      r.version ≤ ((init kIsServer).run es).versionOf r.node_id r.component_id) := by
  induction es using List.reverseRecOn with
  | nil =>
    refine ⟨?_, ?_, ?_⟩
    · intro m hm; cases hm
    · intro batch hb; cases hb
    · intro r hr; cases hr
  | append_singleton es e ih =>
    obtain ⟨ihq, ihw, ihv⟩ := ih
    rw [run_append_singleton]
    generalize (init kIsServer).run es = s at ihq ihw ihv
    have ihq2 : ∀ m ∈ s.out_buffer_, enqueuedFresh (es ++ [e]) m :=
      fun m hm => enqueuedFresh_append es e m (ihq m hm)
    have ihw2 : ∀ batch ∈ s.writes, ∀ m ∈ batch, enqueuedFresh (es ++ [e]) m :=
      fun batch hb m hm => enqueuedFresh_append es e m (ihw batch hb m hm)
    cases e with
    | Enqueue m0 =>
      show (∀ m ∈ (s.Update m0).out_buffer_, _) ∧ (∀ batch ∈ (s.Update m0).writes, _) ∧ _
      have hq : ∀ m ∈ (s.enqueue m0).out_buffer_, enqueuedFresh (es ++ [Event.Enqueue m0]) m := by
        intro m hm
        rw [enqueue_out_buffer] at hm
        by_cases hf : s.versionOf m0.node_id m0.component_id < m0.version
        · rw [if_pos hf] at hm
          rcases List.mem_append.mp hm with hm | hm
          · exact ihq2 m hm
          · have hmm : m = m0 := by simpa using hm
            subst hmm
            refine ⟨es, [], rfl, ?_⟩
            intro r hr hn hc
            have := ihv r hr
            rw [hn, hc] at this
            omega
        · rw [if_neg hf] at hm
          exact ihq2 m hm
      have hp := Update_preserves (enqueuedFresh (es ++ [Event.Enqueue m0])) s m0 hq ihw2
      refine ⟨hp.1, hp.2, ?_⟩
      intro r hr
      rw [received_append_singleton] at hr
      simp only [List.append_nil] at hr
      exact Nat.le_trans (ihv r hr) (versionOf_le_Update s m0 _ _)
    | ReadDone B =>
      show (∀ m ∈ (s.readCompleted B).out_buffer_, _) ∧
        (∀ batch ∈ (s.readCompleted B).writes, _) ∧ _
      have hf := readCompleted_fields s B
      rw [hf.1, hf.2]
      refine ⟨ihq2, ihw2, ?_⟩
      intro r hr
      rw [received_append_singleton] at hr
      rcases List.mem_append.mp hr with hr | hr
      · exact Nat.le_trans (ihv r hr) (versionOf_le_readCompleted s B _ _)
      · exact (readCompleted_covers s B r hr).2
    | WriteDone =>
      show (∀ m ∈ s.SendNextMessage.out_buffer_, _) ∧
        (∀ batch ∈ s.SendNextMessage.writes, _) ∧ _
      have hp := SendNextMessage_preserves (enqueuedFresh (es ++ [Event.WriteDone])) s ihq2 ihw2
      refine ⟨hp.1, hp.2, ?_⟩
      intro r hr
      rw [received_append_singleton] at hr
      simp only [List.append_nil] at hr
      show r.version ≤ s.SendNextMessage.versionOf r.node_id r.component_id
      rw [versionOf_SendNextMessage]
      exact ihv r hr

/-! ### Immediate send -/

/-- C6, the failing run. From the initial state, `Update` of version 1 of node "A"
starts a write of `[A]`; its completion empties the queue and clears
`out_message_` but leaves `consumed_messages_` at 1. A following `Update` of version 1
of node "B", with no write in flight and the table entry of its key at 0, starts no
write: the batches written stay `[[A]]`, the queue is empty after the call, and the
table records version 1 of "B" as sent. -/
theorem Update_immediate_send_fails :
    afterFirstWrite.out_message_ = none ∧
    afterFirstWrite.consumed_messages_ = 1 ∧
    afterFirstWrite.versionOf "B" 0 < (snapshot "B" 0 1 "y").version ∧
    (afterFirstWrite.Update (snapshot "B" 0 1 "y")).writes = [[snapshot "A" 0 1 "x"]] ∧
    (afterFirstWrite.Update (snapshot "B" 0 1 "y")).out_message_ = none ∧
    (afterFirstWrite.Update (snapshot "B" 0 1 "y")).out_buffer_ = [] ∧
    (afterFirstWrite.Update (snapshot "B" 0 1 "y")).versionOf "B" 0 = 1 := by
  decide

/-! ### Versions written against versions received -/

/-- C8, refuted as stated. Version 5 of node "A" is enqueued while the write of
version 1 is in flight; version 7 of the same key is then received; when the write
completes, the next batch passed to `StartWrite` holds version 5, which is not
greater than the version 7 received before that write started. -/
theorem StartWrite_stale_counterexample :
    ((init true).run
        [Event.Enqueue (snapshot "A" 0 1 "x"), Event.Enqueue (snapshot "A" 0 5 "y"),
         Event.ReadDone [snapshot "A" 0 7 "z"], Event.WriteDone]).calls =
      [Call.StartWrite [snapshot "A" 0 1 "x"], Call.InstanceUpdate [snapshot "A" 0 7 "z"],
       Call.StartRead, Call.StartWrite [snapshot "A" 0 5 "y"]] ∧
    ¬ (snapshot "A" 0 7 "z").version < (snapshot "A" 0 5 "y").version := by
  decide

/-- C8, amended. In every execution of one session from the initial state (any
sequence of `Update` calls, successful read completions and successful write
completions), every message contained in a batch passed to `StartWrite` was passed to
`Update` at a point before which every version received from the peer for its
`(node_id, component_id)` was strictly smaller than the message's version. -/
theorem StartWrite_fresh_when_enqueued (kIsServer : Bool) (events : List Event)
    (batch : RaySyncMessages) (m : RaySyncMessage)
    (hb : batch ∈ ((init kIsServer).run events).writes) (hm : m ∈ batch) :
    enqueuedFresh events m :=
  (run_invariant kIsServer events).2.1 batch hb m hm

/-- C8 amended, at the execution of the counterexample: version 5 of node "A", written
in the second batch, was enqueued before version 7 was received. -/
theorem StartWrite_fresh_when_enqueued_witness :
    enqueuedFresh
      [Event.Enqueue (snapshot "A" 0 1 "x"), Event.Enqueue (snapshot "A" 0 5 "y"),
       Event.ReadDone [snapshot "A" 0 7 "z"], Event.WriteDone]
      (snapshot "A" 0 5 "y") :=
  StartWrite_fresh_when_enqueued true
    [Event.Enqueue (snapshot "A" 0 1 "x"), Event.Enqueue (snapshot "A" 0 5 "y"),
     Event.ReadDone [snapshot "A" 0 7 "z"], Event.WriteDone]
    [snapshot "A" 0 5 "y"] (snapshot "A" 0 5 "y") (by decide) (by decide)

end NodeSyncContext

/-! ## Facts about the handshake -/

namespace NodeSyncContext

theorem count_StartRead_append_StartWrite (calls : List Call) (b : RaySyncMessages) :
    (calls ++ [Call.StartWrite b]).count Call.StartRead = calls.count Call.StartRead := by
  simp [List.count_append, List.count_cons]

theorem count_StartRead_SendNextMessage (s : NodeSyncContext) :
    s.SendNextMessage.calls.count Call.StartRead = s.calls.count Call.StartRead := by
  by_cases hq : s.pending = []
  · rw [SendNextMessage_of_no_pending s hq]
  · rw [SendNextMessage_of_pending s hq]
    exact count_StartRead_append_StartWrite s.calls _

theorem count_StartRead_Update (s : NodeSyncContext) (m : RaySyncMessage) :
    (s.Update m).calls.count Call.StartRead = s.calls.count Call.StartRead := by
  unfold Update
  by_cases h : (s.enqueue m).out_message_ = none
  · rw [if_pos h, count_StartRead_SendNextMessage, (enqueue_fields s m).2.2]
  · rw [if_neg h, (enqueue_fields s m).2.2]

theorem count_StartRead_HandleFailure (s : NodeSyncContext) :
    s.HandleFailure.calls.count Call.StartRead = s.calls.count Call.StartRead := by
  unfold HandleFailure
  by_cases h : s.kIsServer = true
  · simp [h, List.count_append, List.count_cons]
  · simp [h]

theorem count_StartRead_OnWriteDone (s : NodeSyncContext) (ok : Bool) :
    (s.OnWriteDone ok).calls.count Call.StartRead = s.calls.count Call.StartRead := by
  unfold OnWriteDone
  cases ok
  · exact count_StartRead_HandleFailure s
  · exact count_StartRead_SendNextMessage s

end NodeSyncContext

namespace Reactor

theorem reads_StartRead (r : Reactor) : r.StartRead.reads = r.reads + 1 := by
  simp [reads, StartRead, List.count_append, List.count_cons]

theorem reads_HandleFailure (r : Reactor) : r.HandleFailure.reads = r.reads :=
  NodeSyncContext.count_StartRead_HandleFailure r.base

/-- C11. Handshake before reading, for both roles. Acceptor: the constructor's `Init`
fails its check when the client metadata has no key `node_id`, so no reactor exists
and no read is issued; otherwise it stores the value in `node_id_` and issues no
read, and the first `StartRead` is the one of `OnSendInitialMetadataDone(true)`, made
with `node_id_` already holding the value. Initiator: the constructor issues no read;
`OnReadInitialMetadataDone(true)` fails its check when the server metadata has no key
`node_id`, and otherwise calls `StartRead` on the state in which `node_id_` holds the
value. A failed handshake callback (`ok = false`) issues no read, and neither do
`Update` or `OnWriteDone`, the pipeline calls that may run before the handshake is
over. -/
theorem handshake_precedes_reading (client_metadata server_metadata : Metadata) :
    (client_metadata "node_id" = none → create true client_metadata = none) ∧
    (∀ v, client_metadata "node_id" = some v →
      ∃ r, create true client_metadata = some r ∧ r.node_id_ = v ∧ r.reads = 0 ∧
        r.OnSendInitialMetadataDone true = r.StartRead ∧
        (r.OnSendInitialMetadataDone true).node_id_ = v ∧
        (r.OnSendInitialMetadataDone true).reads = 1 ∧
        (r.OnSendInitialMetadataDone false).reads = 0) ∧
    (∃ r, create false client_metadata = some r ∧ r.reads = 0 ∧
      (server_metadata "node_id" = none →
        r.OnReadInitialMetadataDone true server_metadata = none) ∧
      (∀ v, server_metadata "node_id" = some v →
        r.OnReadInitialMetadataDone true server_metadata =
          some ({ r with node_id_ := v }).StartRead ∧
        (({ r with node_id_ := v } : Reactor).StartRead).node_id_ = v ∧
        (({ r with node_id_ := v } : Reactor).StartRead).reads = 1) ∧
      (∃ r2, r.OnReadInitialMetadataDone false server_metadata = some r2 ∧ r2.reads = 0)) ∧
    (∀ (s : NodeSyncContext) (m : RaySyncMessage),
      (s.Update m).calls.count Call.StartRead = s.calls.count Call.StartRead) ∧
    (∀ (s : NodeSyncContext) (ok : Bool),
      (s.OnWriteDone ok).calls.count Call.StartRead = s.calls.count Call.StartRead) := by
  refine ⟨?_, ?_, ?_, NodeSyncContext.count_StartRead_Update,
    NodeSyncContext.count_StartRead_OnWriteDone⟩
  · intro h
    simp [create, Init, constructed, NodeSyncContext.init, h, RAY_CHECK]
  · intro v h
    refine ⟨{ constructed true with
        node_id_ := v
        handshake_calls := [HandshakeCall.StartSendInitialMetadata] }, ?_, rfl, rfl, rfl, rfl,
      rfl, rfl⟩
    simp [create, Init, constructed, NodeSyncContext.init, h, RAY_CHECK]
  · refine ⟨{ constructed false with handshake_calls := [HandshakeCall.StartCall] }, ?_, rfl,
      ?_, ?_, ?_⟩
    · simp [create, Init, constructed, NodeSyncContext.init]
    · intro h
      simp [OnReadInitialMetadataDone, h, RAY_CHECK]
    · intro v h
      refine ⟨?_, rfl, rfl⟩
      simp [OnReadInitialMetadataDone, h, RAY_CHECK]
    · exact ⟨_, rfl, rfl⟩

/-- C11, at concrete metadata: the acceptor learns the peer id "B" in the constructor
and reads once after the metadata is sent; the initiator, given server metadata
without the key, fails its check. -/
theorem handshake_precedes_reading_witness :
    (∃ r, create true (nodeIdMetadata "B") = some r ∧ r.node_id_ = "B" ∧ r.reads = 0 ∧
      r.OnSendInitialMetadataDone true = r.StartRead ∧
      (r.OnSendInitialMetadataDone true).node_id_ = "B" ∧
      (r.OnSendInitialMetadataDone true).reads = 1 ∧
      (r.OnSendInitialMetadataDone false).reads = 0) ∧
    create true (fun _ => none) = none :=
  ⟨(handshake_precedes_reading (nodeIdMetadata "B") (fun _ => none)).2.1 "B" (by decide),
   (handshake_precedes_reading (fun _ => none) (fun _ => none)).1 rfl⟩

end Reactor

/-! ## More facts about the merge -/

namespace RaySyncer

theorem Update_registry (s : RaySyncer) (m : RaySyncMessage) :
    (s.Update m).reporters_ = s.reporters_ ∧ (s.Update m).receivers_ = s.receivers_ := by
  rcases accepts_or_stale s m with h | ⟨cur, hcur, hle⟩
  · rw [Update_of_fresh s m h]
    exact ⟨rfl, rfl⟩
  · rw [Update_of_stale s m cur hcur hle]
    exact ⟨rfl, rfl⟩

theorem Update_with_registry (s : RaySyncer) (m : RaySyncMessage)
    (reporters receivers : Nat → Option Nat) :
    ({ s with reporters_ := reporters, receivers_ := receivers } : RaySyncer).Update m =
      { s.Update m with reporters_ := reporters, receivers_ := receivers } := by
  have hslot : ∀ n c, ({ s with reporters_ := reporters, receivers_ := receivers } :
      RaySyncer).slot n c = s.slot n c := fun _ _ => rfl
  rcases accepts_or_stale s m with h | ⟨cur, hcur, hle⟩
  · have h2 : ({ s with reporters_ := reporters, receivers_ := receivers } : RaySyncer).accepts m := h
    rw [Update_of_fresh s m h, Update_of_fresh _ m h2]
    rfl
  · rw [Update_of_stale s m cur hcur hle]
    exact Update_of_stale _ m cur ((hslot _ _).trans hcur) hle

/-- C12. Unregistered component. Let no receiver be registered for `m.component_id`.
`Update(m)` merges and broadcasts `m`: when the slot of its key is empty or holds a
strictly smaller version, afterwards the slot holds `m`, every other slot is
unchanged and `BroadcastMessage` is called exactly once, with `m`; when the slot
holds a version `>= m.version` the state is unchanged. It does so exactly as with a
receiver registered: with any other content of `reporters_` and `receivers_` in place
of the present one, the resulting cluster view and the calls of `BroadcastMessage` are
the same, and the call leaves the registry as it is. The call is a total function and
has no failing outcome. With the local delivery of `BroadcastMessage` taken from the
specification, no receiver is invoked. -/
theorem Update_unregistered (s : RaySyncer) (m : RaySyncMessage)
    (hnone : s.receivers_ m.component_id = none) :
    ((s.slot m.node_id m.component_id = none ∨
        ∃ cur, s.slot m.node_id m.component_id = some cur ∧ cur.version < m.version) →
      (s.Update m).slot m.node_id m.component_id = some m ∧
      (∀ n c, ¬ (n = m.node_id ∧ c = m.component_id) → (s.Update m).slot n c = s.slot n c) ∧
      (s.Update m).broadcast_calls = s.broadcast_calls ++ [m]) ∧
    ((∃ cur, s.slot m.node_id m.component_id = some cur ∧ m.version ≤ cur.version) →
      s.Update m = s) ∧
    (∀ reporters receivers : Nat → Option Nat,
      (({ s with reporters_ := reporters, receivers_ := receivers } : RaySyncer).Update
          m).cluster_view_ = (s.Update m).cluster_view_ ∧
      (({ s with reporters_ := reporters, receivers_ := receivers } : RaySyncer).Update
          m).broadcast_calls = (s.Update m).broadcast_calls) ∧
    (s.Update m).reporters_ = s.reporters_ ∧
    (s.Update m).receivers_ = s.receivers_ ∧
    s.receiverCalls m = [] := by
  refine ⟨?_, ?_, ?_, (Update_registry s m).1, (Update_registry s m).2, ?_⟩
  · intro h
    have hacc : s.accepts m := by
      intro cur hcur
      rcases h with h | ⟨cur2, h2, hlt⟩
      · rw [h] at hcur; cases hcur
      · rw [h2] at hcur; cases hcur; exact hlt
    refine ⟨slot_Update_self s m hacc, ?_, ?_⟩
    · intro n c hne
      rw [slot_Update_of_fresh s m hacc, if_neg hne]
    · rw [Update_of_fresh s m hacc]
  · rintro ⟨cur, hcur, hle⟩
    exact Update_of_stale s m cur hcur hle
  · intro reporters receivers
    rw [Update_with_registry]
    exact ⟨rfl, rfl⟩
  · unfold receiverCalls
    rcases accepts_or_stale s m with h | ⟨cur, hcur, hle⟩
    · rw [Update_of_fresh s m h]
      simp [BroadcastMessage_deliver, hnone]
    · rw [Update_of_stale s m cur hcur hle]
      simp

/-- C12, at concrete inputs: with no component registered, the first message of node
"B" is stored and passed to `BroadcastMessage` once, as it is when a receiver is
registered, and no receiver is invoked; the same message arriving again changes
nothing. -/
theorem Update_unregistered_witness :
    ((empty.Update (snapshot "B" 0 1 "x")).slot "B" 0 = some (snapshot "B" 0 1 "x") ∧
      (∀ n c, ¬ (n = "B" ∧ c = 0) → (empty.Update (snapshot "B" 0 1 "x")).slot n c = empty.slot n c) ∧
      (empty.Update (snapshot "B" 0 1 "x")).broadcast_calls = [] ++ [snapshot "B" 0 1 "x"]) ∧
    ((empty.Register 0 (some 7) (some 8)).Update (snapshot "B" 0 1 "x")).broadcast_calls =
      (empty.Update (snapshot "B" 0 1 "x")).broadcast_calls ∧
    empty.receiverCalls (snapshot "B" 0 1 "x") = [] ∧
    (empty.Update (snapshot "B" 0 1 "x")).Update (snapshot "B" 0 1 "x") =
      empty.Update (snapshot "B" 0 1 "x") :=
  ⟨(Update_unregistered empty (snapshot "B" 0 1 "x") rfl).1 (Or.inl (by decide)),
   ((Update_unregistered empty (snapshot "B" 0 1 "x") rfl).2.2.1
      (empty.Register 0 (some 7) (some 8)).reporters_
      (empty.Register 0 (some 7) (some 8)).receivers_).2,
   (Update_unregistered empty (snapshot "B" 0 1 "x") rfl).2.2.2.2.2,
   (Update_unregistered (empty.Update (snapshot "B" 0 1 "x")) (snapshot "B" 0 1 "x") rfl).2.1
      ⟨snapshot "B" 0 1 "x", by decide, by decide⟩⟩

end RaySyncer

/-! ## Facts about executions with failed completions -/

namespace NodeSyncContext

theorem HandleFailure_fields (s : NodeSyncContext) :
    s.HandleFailure.writes = s.writes ∧ s.HandleFailure.out_message_ = s.out_message_ ∧
    s.HandleFailure.out_buffer_ = s.out_buffer_ ∧
    s.HandleFailure.consumed_messages_ = s.consumed_messages_ := by
  unfold HandleFailure
  by_cases h : s.kIsServer = true
  · simp [h, writes, List.filterMap_append]
  · simp [h]

theorem readCompleted_out_message (s : NodeSyncContext) (B : RaySyncMessages) :
    (s.readCompleted B).out_message_ = s.out_message_ ∧
    (s.readCompleted B).consumed_messages_ = s.consumed_messages_ := by
  unfold readCompleted
  rw [OnReadDone_true]
  have hf := foldl_recordReceived_fields B ({ s with in_message_ := B })
  exact ⟨hf.2.1, hf.2.2.1⟩

/-- What a run of `SendNextMessage` does to the written batches and `out_message_`. -/
theorem SendNextMessage_writes (s : NodeSyncContext) :
    (s.SendNextMessage.writes = s.writes ∧ s.SendNextMessage.out_message_ = none) ∨
    (∃ b, s.SendNextMessage.writes = s.writes ++ [b] ∧ s.SendNextMessage.out_message_ = some b) := by
  by_cases hq : s.pending = []
  · left
    rw [SendNextMessage_of_no_pending s hq]
    exact ⟨rfl, rfl⟩
  · right
    refine ⟨coalesce s.pending, ?_, ?_⟩
    · rw [SendNextMessage_of_pending s hq]
      exact writes_append_StartWrite s.calls _
    · rw [SendNextMessage_of_pending s hq]

/-- One step of a deliverable execution. `done` counts the write completions
processed before the event, `done2` those processed after it. The invariant: at most
one write has no completion yet, and none has when `out_message_` is null. -/
theorem stepAny_one_write (s : NodeSyncContext) (done : Nat) (e : SessionEvent)
    (h1 : s.writes.length ≤ done + 1) (h2 : s.out_message_ = none → s.writes.length = done)
    (hd : e.isWriteCompletion = true → done < s.writes.length) :
    ((s.stepAny e).writes.length ≤ (done + if e.isWriteCompletion then 1 else 0) + 1 ∧
      ((s.stepAny e).out_message_ = none →
        (s.stepAny e).writes.length = done + if e.isWriteCompletion then 1 else 0)) ∧
    ((s.stepAny e).writes = s.writes ∨
      ∃ b, (s.stepAny e).writes = s.writes ++ [b] ∧
        s.writes.length = done + if e.isWriteCompletion then 1 else 0) := by
  cases e with
  | Ok ev =>
    cases ev with
    | Enqueue m =>
      show (((s.Update m).writes.length ≤ (done + 0) + 1 ∧
        ((s.Update m).out_message_ = none → (s.Update m).writes.length = done + 0)) ∧
        ((s.Update m).writes = s.writes ∨
          ∃ b, (s.Update m).writes = s.writes ++ [b] ∧ s.writes.length = done + 0))
      have hw := writes_enqueue s m
      have hm := (enqueue_fields s m).1
      unfold Update
      by_cases hnull : (s.enqueue m).out_message_ = none
      · rw [if_pos hnull]
        have hlen := h2 (hm ▸ hnull)
        rcases SendNextMessage_writes (s.enqueue m) with ⟨hsw, hso⟩ | ⟨b, hsw, hso⟩
        · rw [hsw, hw]
          exact ⟨⟨by omega, fun _ => by omega⟩, Or.inl rfl⟩
        · rw [hsw, hw, hso]
          refine ⟨⟨by simp; omega, fun h => by cases h⟩, Or.inr ⟨b, rfl, by omega⟩⟩
      · rw [if_neg hnull, hw]
        refine ⟨⟨by omega, fun h => absurd h hnull⟩, Or.inl rfl⟩
    | ReadDone B =>
      show (((s.readCompleted B).writes.length ≤ (done + 0) + 1 ∧
        ((s.readCompleted B).out_message_ = none → (s.readCompleted B).writes.length = done + 0)) ∧
        ((s.readCompleted B).writes = s.writes ∨
          ∃ b, (s.readCompleted B).writes = s.writes ++ [b] ∧ s.writes.length = done + 0))
      rw [(readCompleted_fields s B).2, (readCompleted_out_message s B).1]
      exact ⟨⟨by omega, fun h => by have := h2 h; omega⟩, Or.inl rfl⟩
    | WriteDone =>
      have hlt := hd rfl
      show ((s.SendNextMessage.writes.length ≤ (done + 1) + 1 ∧
        (s.SendNextMessage.out_message_ = none → s.SendNextMessage.writes.length = done + 1)) ∧
        (s.SendNextMessage.writes = s.writes ∨
          ∃ b, s.SendNextMessage.writes = s.writes ++ [b] ∧ s.writes.length = done + 1))
      rcases SendNextMessage_writes s with ⟨hsw, hso⟩ | ⟨b, hsw, hso⟩
      · rw [hsw]
        exact ⟨⟨by omega, fun _ => by omega⟩, Or.inl rfl⟩
      · rw [hsw, hso]
        refine ⟨⟨by simp; omega, fun h => by cases h⟩, Or.inr ⟨b, rfl, by omega⟩⟩
  | ReadFailed =>
    show ((s.HandleFailure.writes.length ≤ (done + 0) + 1 ∧
      (s.HandleFailure.out_message_ = none → s.HandleFailure.writes.length = done + 0)) ∧
      (s.HandleFailure.writes = s.writes ∨
        ∃ b, s.HandleFailure.writes = s.writes ++ [b] ∧ s.writes.length = done + 0))
    rw [(HandleFailure_fields s).1, (HandleFailure_fields s).2.1]
    exact ⟨⟨by omega, fun h => by have := h2 h; omega⟩, Or.inl rfl⟩
  | WriteFailed =>
    have hlt := hd rfl
    show ((s.HandleFailure.writes.length ≤ (done + 1) + 1 ∧
      (s.HandleFailure.out_message_ = none → s.HandleFailure.writes.length = done + 1)) ∧
      (s.HandleFailure.writes = s.writes ∨
        ∃ b, s.HandleFailure.writes = s.writes ++ [b] ∧ s.writes.length = done + 1))
    rw [(HandleFailure_fields s).1]
    exact ⟨⟨by omega, fun _ => by omega⟩, Or.inl rfl⟩

end NodeSyncContext

namespace NodeSyncContext

theorem deliverable_cons (s : NodeSyncContext) (done : Nat) (e : SessionEvent)
    (rest : List SessionEvent) (hd : deliverable s done (e :: rest) = true) :
    (e.isWriteCompletion = true → done < s.writes.length) ∧
    deliverable (s.stepAny e) (done + if e.isWriteCompletion then 1 else 0) rest = true := by
  rw [deliverable] at hd
  by_cases hw : e.isWriteCompletion = true
  · rw [if_pos hw] at hd
    simp only [Bool.and_eq_true, decide_eq_true_eq] at hd
    rw [if_pos hw]
    exact ⟨fun _ => hd.1, hd.2⟩
  · rw [if_neg hw] at hd
    rw [if_neg hw]
    exact ⟨fun h => absurd h hw, hd⟩

theorem writeCompletions_cons (e : SessionEvent) (es : List SessionEvent) :
    writeCompletions (e :: es) = (if e.isWriteCompletion then 1 else 0) + writeCompletions es := by
  unfold writeCompletions
  rw [List.countP_cons]
  by_cases h : e.isWriteCompletion = true
  · simp [h]; omega
  · simp [h]

theorem deliverable_one_write (es : List SessionEvent) (s : NodeSyncContext) (done : Nat)
    (h1 : s.writes.length ≤ done + 1) (h2 : s.out_message_ = none → s.writes.length = done)
    (hd : deliverable s done es = true) (p : List SessionEvent) (e : SessionEvent)
    (rest : List SessionEvent) (heq : es = p ++ e :: rest) :
    ((s.runAny p).stepAny e).writes = (s.runAny p).writes ∨
    ∃ b, ((s.runAny p).stepAny e).writes = (s.runAny p).writes ++ [b] ∧
      (s.runAny p).writes.length = done + writeCompletions (p ++ [e]) := by
  induction es generalizing s done p with
  | nil => cases p <;> cases heq
  | cons x es ih =>
    have hc := deliverable_cons s done x es hd
    have hstep := stepAny_one_write s done x h1 h2 hc.1
    cases p with
    | nil =>
      have hx : x = e := by
        simp only [List.nil_append, List.cons.injEq] at heq
        exact heq.1
      subst hx
      show (s.stepAny x).writes = s.writes ∨ _
      rcases hstep.2 with h | ⟨b, hb, hlen⟩
      · exact Or.inl h
      · refine Or.inr ⟨b, hb, ?_⟩
        show s.writes.length = done + writeCompletions [x]
        rw [writeCompletions_cons]
        simp only [writeCompletions, List.countP_nil]
        omega
    | cons y p =>
      simp only [List.cons_append, List.cons.injEq] at heq
      obtain ⟨hxy, hes⟩ := heq
      subst hxy
      have := ih (s.stepAny x) (done + if x.isWriteCompletion then 1 else 0) hstep.1.1
        hstep.1.2 hc.2 p hes
      have hrun : s.runAny (x :: p) = (s.stepAny x).runAny p := rfl
      rw [hrun]
      rcases this with h | ⟨b, hb, hlen⟩
      · exact Or.inl h
      · refine Or.inr ⟨b, hb, ?_⟩
        rw [List.cons_append, writeCompletions_cons, hlen]
        omega

/-- C13. One write at a time. Take any execution of one session from the initial
state, made of `Update` calls and of read and write completions, successful or
failed, in which a write completion arrives only for a started write that has had
none. At every point of it, the event processed starts at most one write, and when it
starts one, the number of write completions processed up to and including that event
equals the number of writes started before: every write started earlier has had its
completion processed, so a processed write completion lies between any two
consecutive `StartWrite` calls. -/
theorem one_write_at_a_time (kIsServer : Bool) (events : List SessionEvent)
    (hd : deliverable (init kIsServer) 0 events = true)
    (p : List SessionEvent) (e : SessionEvent) (rest : List SessionEvent)
    (heq : events = p ++ e :: rest) :
    (((init kIsServer).runAny p).stepAny e).writes = ((init kIsServer).runAny p).writes ∨
    ∃ b, (((init kIsServer).runAny p).stepAny e).writes =
        ((init kIsServer).runAny p).writes ++ [b] ∧
      ((init kIsServer).runAny p).writes.length = writeCompletions (p ++ [e]) := by
  have h := deliverable_one_write events (init kIsServer) 0 (Nat.zero_le _) (fun _ => rfl) hd p e
    rest heq
  simpa using h

/-- C13, at a concrete execution: two messages are enqueued, the first write
completes and the second write starts; that second `StartWrite` comes when one write
was started and one completion has been processed. -/
theorem one_write_at_a_time_witness :
    (((init true).runAny
        [SessionEvent.Ok (Event.Enqueue (snapshot "A" 0 1 "x")),
         SessionEvent.Ok (Event.Enqueue (snapshot "B" 0 1 "y"))]).stepAny
        (SessionEvent.Ok Event.WriteDone)).writes =
      ((init true).runAny
        [SessionEvent.Ok (Event.Enqueue (snapshot "A" 0 1 "x")),
         SessionEvent.Ok (Event.Enqueue (snapshot "B" 0 1 "y"))]).writes ∨
    ∃ b, (((init true).runAny
        [SessionEvent.Ok (Event.Enqueue (snapshot "A" 0 1 "x")),
         SessionEvent.Ok (Event.Enqueue (snapshot "B" 0 1 "y"))]).stepAny
        (SessionEvent.Ok Event.WriteDone)).writes =
        ((init true).runAny
          [SessionEvent.Ok (Event.Enqueue (snapshot "A" 0 1 "x")),
           SessionEvent.Ok (Event.Enqueue (snapshot "B" 0 1 "y"))]).writes ++ [b] ∧
      ((init true).runAny
        [SessionEvent.Ok (Event.Enqueue (snapshot "A" 0 1 "x")),
         SessionEvent.Ok (Event.Enqueue (snapshot "B" 0 1 "y"))]).writes.length =
        writeCompletions
          ([SessionEvent.Ok (Event.Enqueue (snapshot "A" 0 1 "x")),
            SessionEvent.Ok (Event.Enqueue (snapshot "B" 0 1 "y"))] ++
           [SessionEvent.Ok Event.WriteDone]) :=
  one_write_at_a_time true
    [SessionEvent.Ok (Event.Enqueue (snapshot "A" 0 1 "x")),
     SessionEvent.Ok (Event.Enqueue (snapshot "B" 0 1 "y")),
     SessionEvent.Ok Event.WriteDone, SessionEvent.WriteFailed]
    (by decide)
    [SessionEvent.Ok (Event.Enqueue (snapshot "A" 0 1 "x")),
     SessionEvent.Ok (Event.Enqueue (snapshot "B" 0 1 "y"))]
    (SessionEvent.Ok Event.WriteDone) [SessionEvent.WriteFailed] rfl

end NodeSyncContext

/-! ## The suppression table over an execution -/

namespace NodeSyncContext

open RaySyncer (appliedVersions maxVersion)

theorem maxVersion_append (a b : List Nat) :
    maxVersion (a ++ b) = max (maxVersion a) (maxVersion b) := by
  induction a with
  | nil => simp [maxVersion]
  | cons x a ih =>
    simp only [maxVersion, List.cons_append, List.foldr_cons] at ih ⊢
    rw [ih]
    omega

theorem appliedVersions_singleton (m : RaySyncMessage) (n : String) (c : Nat) :
    appliedVersions [m] n c = if m.node_id = n ∧ m.component_id = c then [m.version] else [] := by
  unfold appliedVersions
  by_cases hk : m.node_id = n ∧ m.component_id = c
  · rw [if_pos hk, List.filter_cons_of_pos (by simpa using hk)]
    rfl
  · rw [if_neg hk, List.filter_cons_of_neg (by simpa using hk)]
    rfl

theorem appliedVersions_cons (m : RaySyncMessage) (B : List RaySyncMessage) (n : String)
    (c : Nat) : appliedVersions (m :: B) n c = appliedVersions [m] n c ++ appliedVersions B n c :=
  RaySyncer.appliedVersions_append [m] B n c

theorem versionOf_recordReceived_max (s : NodeSyncContext) (m : RaySyncMessage) (n : String)
    (c : Nat) :
    (s.recordReceived m).versionOf n c =
      max (s.versionOf n c) (maxVersion (appliedVersions [m] n c)) := by
  rw [versionOf_recordReceived, appliedVersions_singleton]
  by_cases hk : m.node_id = n ∧ m.component_id = c
  · obtain ⟨rfl, rfl⟩ := hk
    by_cases hf : s.versionOf m.node_id m.component_id < m.version
    · simp [hf, maxVersion]; omega
    · simp [hf, maxVersion]; omega
  · have hk2 : ¬ (n = m.node_id ∧ c = m.component_id) := fun h => hk ⟨h.1.symm, h.2.symm⟩
    simp [hk, hk2, maxVersion]

theorem versionOf_Update_max (s : NodeSyncContext) (m : RaySyncMessage) (n : String) (c : Nat) :
    (s.Update m).versionOf n c =
      max (s.versionOf n c) (maxVersion (appliedVersions [m] n c)) := by
  rw [versionOf_Update, versionOf_enqueue, ← versionOf_recordReceived,
    versionOf_recordReceived_max]

theorem versionOf_foldl_recordReceived_max (B : List RaySyncMessage) (s : NodeSyncContext)
    (n : String) (c : Nat) :
    (B.foldl recordReceived s).versionOf n c =
      max (s.versionOf n c) (maxVersion (appliedVersions B n c)) := by
  induction B generalizing s with
  | nil => simp [appliedVersions, maxVersion]
  | cons b B ih =>
    rw [List.foldl_cons, ih, versionOf_recordReceived_max, appliedVersions_cons b B,
      maxVersion_append]
    omega

theorem versionOf_readCompleted_max (s : NodeSyncContext) (B : RaySyncMessages) (n : String)
    (c : Nat) :
    (s.readCompleted B).versionOf n c =
      max (s.versionOf n c) (maxVersion (appliedVersions B n c)) := by
  unfold readCompleted
  rw [OnReadDone_true]
  exact versionOf_foldl_recordReceived_max B ({ s with in_message_ := B }) n c

theorem seenVersions_cons (e : Event) (es : List Event) (n : String) (c : Nat) :
    seenVersions (e :: es) n c = seenVersions [e] n c ++ seenVersions es n c := by
  simp [seenVersions]

theorem versionOf_step_max (s : NodeSyncContext) (e : Event) (n : String) (c : Nat) :
    (s.step e).versionOf n c = max (s.versionOf n c) (maxVersion (seenVersions [e] n c)) := by
  cases e with
  | Enqueue m =>
    show (s.Update m).versionOf n c = _
    rw [versionOf_Update_max]
    simp [seenVersions]
  | ReadDone B =>
    show (s.readCompleted B).versionOf n c = _
    rw [versionOf_readCompleted_max]
    simp [seenVersions]
  | WriteDone =>
    show s.SendNextMessage.versionOf n c = _
    rw [versionOf_SendNextMessage]
    simp [seenVersions, maxVersion]

theorem versionOf_run_max (es : List Event) (s : NodeSyncContext) (n : String) (c : Nat) :
    (s.run es).versionOf n c = max (s.versionOf n c) (maxVersion (seenVersions es n c)) := by
  induction es generalizing s with
  | nil => simp [run, seenVersions, maxVersion]
  | cons e es ih =>
    have hrun : s.run (e :: es) = (s.step e).run es := rfl
    rw [hrun, ih, versionOf_step_max, seenVersions_cons e es, maxVersion_append]
    omega

theorem readCompleted_calls (s : NodeSyncContext) (B : RaySyncMessages) :
    (s.readCompleted B).calls = s.calls ++ [Call.InstanceUpdate B, Call.StartRead] := by
  unfold readCompleted
  rw [OnReadDone_true]
  have hf := foldl_recordReceived_fields B ({ s with in_message_ := B })
  show _ ++ _ = _
  rw [hf.2.2.2]

end NodeSyncContext

namespace NodeSyncContext

open RaySyncer (appliedVersions maxVersion)

/-- C15. The suppression table records the highest version seen. In every state
reached from the initial state by `Update` calls and successful read completions
(write completions may be interleaved: they leave the table alone), one more event
never lowers an entry, and the entry of each `(node_id, component_id)` is the maximum
of 0, the versions of the messages passed to `Update` for that key and the versions
of the messages received for that key. A read completion raises the entry of every
message of the batch to at least its version, as a function of the table and the
batch alone (no state of the coordinator enters), and in the state in which the batch
is handed to `instance_.Update` (the call logged last but one, before `StartRead`)
the table is already the updated one. -/
theorem table_records_highest (kIsServer : Bool) (events : List Event) (e : Event)
    (n : String) (c : Nat) :
    ((init kIsServer).run events).versionOf n c ≤
      ((init kIsServer).run (events ++ [e])).versionOf n c ∧
    ((init kIsServer).run events).versionOf n c = maxVersion (seenVersions events n c) ∧
    (∀ (s : NodeSyncContext) (B : RaySyncMessages),
      (s.readCompleted B).calls = s.calls ++ [Call.InstanceUpdate B, Call.StartRead] ∧
      (∀ n2 c2, (s.readCompleted B).versionOf n2 c2 =
        max (s.versionOf n2 c2) (maxVersion (appliedVersions B n2 c2))) ∧
      (∀ b ∈ B, b.version ≤ (s.readCompleted B).versionOf b.node_id b.component_id)) := by
  refine ⟨?_, ?_, ?_⟩
  · rw [run_append_singleton, versionOf_step_max]
    omega
  · rw [versionOf_run_max]
    have h0 : (init kIsServer).versionOf n c = 0 := rfl
    rw [h0]
    omega
  · intro s B
    exact ⟨readCompleted_calls s B, versionOf_readCompleted_max s B,
      fun b hb => (readCompleted_covers s B b hb).2⟩

/-- C15, at a concrete execution: version 2 of ("A", 0) is enqueued, versions 5 and 3
of the same key are received, version 4 is passed to `Update`; the entry is 5. -/
theorem table_records_highest_witness :
    ((init true).run
        [Event.Enqueue (snapshot "A" 0 2 "x"),
         Event.ReadDone [snapshot "A" 0 5 "y", snapshot "A" 0 3 "z"],
         Event.Enqueue (snapshot "A" 0 4 "w")]).versionOf "A" 0 = 5 ∧
    (snapshot "A" 0 3 "z").version ≤
      ((init true).readCompleted [snapshot "A" 0 5 "y", snapshot "A" 0 3 "z"]).versionOf "A" 0 :=
  ⟨((table_records_highest true
      [Event.Enqueue (snapshot "A" 0 2 "x"),
       Event.ReadDone [snapshot "A" 0 5 "y", snapshot "A" 0 3 "z"],
       Event.Enqueue (snapshot "A" 0 4 "w")] Event.WriteDone "A" 0).2.1).trans (by decide),
   ((table_records_highest true [] Event.WriteDone "A" 0).2.2 (init true)
      [snapshot "A" 0 5 "y", snapshot "A" 0 3 "z"]).2.2 (snapshot "A" 0 3 "z") (by decide)⟩

end NodeSyncContext

/-! ## The order of the outbound queue -/

namespace NodeSyncContext

theorem versionOf_le_enqueue (s : NodeSyncContext) (m : RaySyncMessage) (n : String) (c : Nat) :
    s.versionOf n c ≤ (s.enqueue m).versionOf n c := by
  rw [← versionOf_Update]
  exact versionOf_le_Update s m n c

/-- The queue invariant survives the enqueue step. -/
theorem enqueue_ordered (s : NodeSyncContext) (m : RaySyncMessage)
    (hp : s.out_buffer_.Pairwise versionOrdered)
    (hb : ∀ a ∈ s.out_buffer_, a.version ≤ s.versionOf a.node_id a.component_id) :
    (s.enqueue m).out_buffer_.Pairwise versionOrdered ∧
    (∀ a ∈ (s.enqueue m).out_buffer_,
      a.version ≤ (s.enqueue m).versionOf a.node_id a.component_id) := by
  rw [enqueue_out_buffer]
  by_cases hf : s.versionOf m.node_id m.component_id < m.version
  · rw [if_pos hf]
    constructor
    · rw [List.pairwise_append]
      refine ⟨hp, List.pairwise_singleton _ _, ?_⟩
      intro a ha b hbm hn hc
      have hbm2 : b = m := by simpa using hbm
      subst hbm2
      have := hb a ha
      rw [hn, hc] at this
      omega
    · intro a ha
      rcases List.mem_append.mp ha with ha | ha
      · exact Nat.le_trans (hb a ha) (versionOf_le_enqueue s m _ _)
      · have ham : a = m := by simpa using ha
        subst ham
        rw [versionOf_enqueue]
        simp [hf]
  · rw [if_neg hf]
    exact ⟨hp, fun a ha => Nat.le_trans (hb a ha) (versionOf_le_enqueue s m _ _)⟩

theorem SendNextMessage_ordered (s : NodeSyncContext)
    (hp : s.out_buffer_.Pairwise versionOrdered)
    (hb : ∀ a ∈ s.out_buffer_, a.version ≤ s.versionOf a.node_id a.component_id) :
    s.SendNextMessage.out_buffer_.Pairwise versionOrdered ∧
    (∀ a ∈ s.SendNextMessage.out_buffer_,
      a.version ≤ s.SendNextMessage.versionOf a.node_id a.component_id) := by
  rw [SendNextMessage_out_buffer]
  refine ⟨hp.sublist (List.drop_sublist _ _), ?_⟩
  intro a ha
  rw [versionOf_SendNextMessage]
  exact hb a (List.mem_of_mem_drop ha)

theorem step_ordered (s : NodeSyncContext) (e : Event)
    (hp : s.out_buffer_.Pairwise versionOrdered)
    (hb : ∀ a ∈ s.out_buffer_, a.version ≤ s.versionOf a.node_id a.component_id) :
    (s.step e).out_buffer_.Pairwise versionOrdered ∧
    (∀ a ∈ (s.step e).out_buffer_,
      a.version ≤ (s.step e).versionOf a.node_id a.component_id) := by
  cases e with
  | Enqueue m =>
    show (s.Update m).out_buffer_.Pairwise versionOrdered ∧
      (∀ a ∈ (s.Update m).out_buffer_, a.version ≤ (s.Update m).versionOf a.node_id a.component_id)
    have he := enqueue_ordered s m hp hb
    unfold Update
    by_cases hnull : (s.enqueue m).out_message_ = none
    · rw [if_pos hnull]
      exact SendNextMessage_ordered _ he.1 he.2
    · rw [if_neg hnull]
      exact he
  | ReadDone B =>
    show (s.readCompleted B).out_buffer_.Pairwise versionOrdered ∧
      (∀ a ∈ (s.readCompleted B).out_buffer_,
        a.version ≤ (s.readCompleted B).versionOf a.node_id a.component_id)
    rw [(readCompleted_fields s B).1]
    exact ⟨hp, fun a ha => Nat.le_trans (hb a ha) (versionOf_le_readCompleted s B _ _)⟩
  | WriteDone => exact SendNextMessage_ordered s hp hb

theorem run_ordered (es : List Event) (s : NodeSyncContext)
    (hp : s.out_buffer_.Pairwise versionOrdered)
    (hb : ∀ a ∈ s.out_buffer_, a.version ≤ s.versionOf a.node_id a.component_id) :
    (s.run es).out_buffer_.Pairwise versionOrdered ∧
    (∀ a ∈ (s.run es).out_buffer_,
      a.version ≤ (s.run es).versionOf a.node_id a.component_id) := by
  induction es generalizing s with
  | nil => exact ⟨hp, hb⟩
  | cons e es ih =>
    have hs := step_ordered s e hp hb
    exact ih (s.step e) hs.1 hs.2

theorem last_is_highest (q : List RaySyncMessage) (hp : q.Pairwise versionOrdered)
    (n : String) (c : Nat) (last : RaySyncMessage)
    (hl : (RaySyncer.messagesFor q n c).getLast? = some last) :
    ∀ a ∈ RaySyncer.messagesFor q n c, a.version ≤ last.version := by
  have hsub : (RaySyncer.messagesFor q n c).Pairwise versionOrdered :=
    hp.sublist (List.filter_sublist _)
  have hdec := List.dropLast_append_getLast? last hl
  intro a ha
  rw [← hdec] at ha hsub
  rcases List.mem_append.mp ha with ha | ha
  · have hr := (List.pairwise_append.mp hsub).2.2 a ha last (by simp)
    have hka := RaySyncer.mem_messagesFor (L := q) (n := n) (c := c)
      (hdec ▸ List.mem_append_left _ ha)
    have hkl := RaySyncer.mem_messagesFor (L := q) (n := n) (c := c)
      (List.mem_of_getLast?_eq_some hl)
    exact Nat.le_of_lt (hr (hka.2.1.trans hkl.2.1.symm) (hka.2.2.trans hkl.2.2.symm))
  · have : a = last := by simpa using ha
    rw [this]

/-- C19. Queued versions increase per key. In every state reached from the initial
state by `Update` calls, successful read completions and successful write completions
(the runs of `SendNextMessage`), any two messages of the outbound queue with the same
`(node_id, component_id)` stand in strictly increasing version order, and so the last
queued message of a key, the one enqueued most recently, has the highest version
among the queued messages of that key. -/
theorem queued_versions_increase (kIsServer : Bool) (events : List Event) :
    ((init kIsServer).run events).out_buffer_.Pairwise versionOrdered ∧
    (∀ n c last,
      (RaySyncer.messagesFor ((init kIsServer).run events).out_buffer_ n c).getLast? = some last →
      ∀ a ∈ RaySyncer.messagesFor ((init kIsServer).run events).out_buffer_ n c,
        a.version ≤ last.version) := by
  have h := run_ordered events (init kIsServer) List.Pairwise.nil (fun a ha => by cases ha)
  exact ⟨h.1, fun n c last hl => last_is_highest _ h.1 n c last hl⟩

/-- C19, at a concrete session: behind a write in flight the queue holds versions 1 to
4 of ("X", 0); the last of them, version 4, is at least version 3. -/
theorem queued_versions_increase_witness :
    (snapshot "X" 0 3 "d").version ≤ (snapshot "X" 0 4 "e").version :=
  (queued_versions_increase true
      [Event.Enqueue (snapshot "X" 0 1 "a"), Event.Enqueue (snapshot "X" 0 2 "b"),
       Event.Enqueue (snapshot "Y" 0 1 "c"), Event.Enqueue (snapshot "X" 0 3 "d"),
       Event.Enqueue (snapshot "X" 0 4 "e")]).2 "X" 0 (snapshot "X" 0 4 "e") (by decide)
    (snapshot "X" 0 3 "d") (by decide)

end NodeSyncContext

/-! ## Runs on which the pipeline loses a message -/

namespace NodeSyncContext

/-- C16, the failing runs. After `Update` of version 1 of node "A" and the completion
of its write, the queue is empty, no write is in flight and `consumed_messages_` is
still 1, the length of the queue `[A]` from which the only batch was built.
A following `Update` of version 1 of node "B" runs `SendNextMessage` on the queue
`[B]`: the one entry it erases is "B", which was in no queue a batch was built from.
A following `Update` of a message that the suppression check drops (the same version
1 of node "A") runs `SendNextMessage` on the empty queue with a count of 1: the
count exceeds the queue length. -/
theorem erase_range_fails :
    afterFirstWrite.writes = [[snapshot "A" 0 1 "x"]] ∧
    afterFirstWrite.consumed_messages_ = 1 ∧
    (afterFirstWrite.enqueue (snapshot "B" 0 1 "y")).out_message_ = none ∧
    (afterFirstWrite.enqueue (snapshot "B" 0 1 "y")).out_buffer_.take
        (afterFirstWrite.enqueue (snapshot "B" 0 1 "y")).consumed_messages_ =
      [snapshot "B" 0 1 "y"] ∧
    snapshot "B" 0 1 "y" ∉ [snapshot "A" 0 1 "x"] ∧
    (afterFirstWrite.enqueue (snapshot "A" 0 1 "x")).out_message_ = none ∧
    (afterFirstWrite.enqueue (snapshot "A" 0 1 "x")).out_buffer_.length <
      (afterFirstWrite.enqueue (snapshot "A" 0 1 "x")).consumed_messages_ := by
  decide

/-- C17, refuted as stated. With the write of version 1 of ("X", 0) in flight, version
2 of ("X", 0) and version 1 of ("X", 1) are queued. When the write completes, the
queue left after the erase is these two messages; the key ("X", 0) occurs in it and
version 2 is its highest queued version; the batch built from it, one message per
node id, is the message of component 1 alone and does not contain version 2 of
("X", 0). -/
theorem coalescing_drops_component :
    twoComponents.pending = [snapshot "X" 0 2 "b", snapshot "X" 1 1 "c"] ∧
    snapshot "X" 0 2 "b" ∈ RaySyncer.messagesFor twoComponents.pending "X" 0 ∧
    (∀ a ∈ RaySyncer.messagesFor twoComponents.pending "X" 0,
      a.version ≤ (snapshot "X" 0 2 "b").version) ∧
    twoComponents.SendNextMessage.out_message_ = some (coalesce twoComponents.pending) ∧
    coalesce twoComponents.pending = [snapshot "X" 1 1 "c"] ∧
    snapshot "X" 0 2 "b" ∉ coalesce twoComponents.pending := by
  decide

/-- C18, the failing message. A first snapshot of node "B" with version 0, as the
test's `LocalNode` builds it before any state change, is accepted by
`RaySyncer::Update` into an empty cluster view (stored and passed to
`BroadcastMessage`), but `NodeSyncContext::Update` on a session with an empty
suppression table does not queue it: the entry it reads is 0 and `0 < 0` fails, so
the queue stays empty and nothing is written. -/
theorem version_zero_not_queued :
    (RaySyncer.empty.Update (snapshot "B" 0 0 "s")).slot "B" 0 = some (snapshot "B" 0 0 "s") ∧
    (RaySyncer.empty.Update (snapshot "B" 0 0 "s")).broadcast_calls = [snapshot "B" 0 0 "s"] ∧
    (init true).versionOf "B" 0 = 0 ∧
    ((init true).Update (snapshot "B" 0 0 "s")).out_buffer_ = [] ∧
    ((init true).Update (snapshot "B" 0 0 "s")).writes = [] ∧
    ((init false).Update (snapshot "B" 0 0 "s")).out_buffer_ = [] := by
  decide

end NodeSyncContext

namespace NodeSyncContext

/-- From the initial state a message of version at least 1 is queued and written at
once; the merge accepts any message into an empty cluster view. The two disagree on
version 0 only. -/
theorem Update_from_init (kIsServer : Bool) (m : RaySyncMessage) (s0 : RaySyncer)
    (h0 : s0.cluster_view_ = fun _ => none) :
    (s0.Update m).slot m.node_id m.component_id = some m ∧
    (0 < m.version →
      ((init kIsServer).Update m).out_buffer_ = [m] ∧
      ((init kIsServer).Update m).writes = [[m]]) ∧
    (m.version = 0 → ((init kIsServer).Update m).out_buffer_ = [] ∧
      ((init kIsServer).Update m).writes = []) := by
  have hacc : s0.accepts m := by
    intro cur hcur
    simp [RaySyncer.slot, h0] at hcur
  have hv0 : (init kIsServer).versionOf m.node_id m.component_id = 0 := rfl
  have hfields := enqueue_fields (init kIsServer) m
  have hnull : ((init kIsServer).enqueue m).out_message_ = none := hfields.1
  have hcons : ((init kIsServer).enqueue m).consumed_messages_ = 0 := hfields.2.1
  have hw : ((init kIsServer).enqueue m).writes = [] := writes_enqueue (init kIsServer) m
  have hq := enqueue_out_buffer (init kIsServer) m
  rw [hv0] at hq
  refine ⟨RaySyncer.slot_Update_self s0 m hacc, ?_, ?_⟩
  · intro hpos
    rw [if_pos hpos] at hq
    have hq2 : ((init kIsServer).enqueue m).out_buffer_ = [m] := hq
    have hpend : ((init kIsServer).enqueue m).pending = [m] := by
      unfold pending
      rw [hcons, hq2]
      rfl
    unfold Update
    rw [if_pos hnull, SendNextMessage_of_pending _ (by rw [hpend]; simp)]
    refine ⟨hpend, ?_⟩
    show List.filterMap _ (_ ++ _) = _
    rw [hpend]
    have hw2 : ((init kIsServer).enqueue m).calls.filterMap
        (fun c => match c with | Call.StartWrite b => some b | _ => none) = [] := hw
    rw [List.filterMap_append, hw2]
    rfl
  · intro hzero
    rw [if_neg (by omega)] at hq
    have hq2 : ((init kIsServer).enqueue m).out_buffer_ = [] := hq
    have hpend : ((init kIsServer).enqueue m).pending = [] := by
      unfold pending
      rw [hq2, List.drop_nil]
    unfold Update
    rw [if_pos hnull, SendNextMessage_of_no_pending _ hpend]
    exact ⟨rfl, hw⟩

end NodeSyncContext

/-! ## What coalescing keeps -/

namespace NodeSyncContext

theorem getLast?_filter_of_pos (l : List RaySyncMessage) (p : RaySyncMessage → Bool)
    (x : RaySyncMessage) (hl : l.getLast? = some x) (hp : p x = true) :
    (l.filter p).getLast? = some x := by
  have hdec := List.dropLast_append_getLast? x hl
  rw [← hdec, List.filter_append, List.filter_cons_of_pos hp, List.filter_nil]
  simp

theorem messagesFor_eq_filter_filter (q : List RaySyncMessage) (n : String) (c : Nat) :
    RaySyncer.messagesFor q n c =
      (q.filter (fun a => a.node_id = n)).filter (fun a => a.component_id = c) := by
  unfold RaySyncer.messagesFor
  rw [List.filter_filter]
  congr 1
  funext a
  by_cases h1 : a.node_id = n <;> by_cases h2 : a.component_id = c <;> simp [h1, h2]

/-- In a queue ordered by version per key, the queued message of a key with the
highest version is the last queued message of that key. -/
theorem highest_is_last (q : List RaySyncMessage) (hp : q.Pairwise versionOrdered)
    (n : String) (c : Nat) (m last : RaySyncMessage)
    (hm : m ∈ RaySyncer.messagesFor q n c)
    (hmax : ∀ a ∈ RaySyncer.messagesFor q n c, a.version ≤ m.version)
    (hl : (RaySyncer.messagesFor q n c).getLast? = some last) : m = last := by
  have hsub : (RaySyncer.messagesFor q n c).Pairwise versionOrdered :=
    hp.sublist (List.filter_sublist _)
  have hlast_mem : last ∈ RaySyncer.messagesFor q n c := List.mem_of_getLast?_eq_some hl
  have hdec := List.dropLast_append_getLast? last hl
  have hm2 := hm
  rw [← hdec] at hm2 hsub
  rcases List.mem_append.mp hm2 with hm3 | hm3
  · have hr := (List.pairwise_append.mp hsub).2.2 m hm3 last (by simp)
    have hkm := RaySyncer.mem_messagesFor hm
    have hkl := RaySyncer.mem_messagesFor hlast_mem
    have hlt := hr (hkm.2.1.trans hkl.2.1.symm) (hkm.2.2.trans hkl.2.2.symm)
    have hle := hmax last hlast_mem
    omega
  · simpa using hm3

theorem pending_ordered (kIsServer : Bool) (events : List Event) :
    ((init kIsServer).run events).pending.Pairwise versionOrdered :=
  (run_ordered events (init kIsServer) List.Pairwise.nil (fun a ha => by cases ha)).1.sublist
    (List.drop_sublist _ _)

/-- The queued message with the highest version of a key is in the batch when the
last queued message of its node carries that key's component id. -/
theorem coalesce_keeps_key (q : List RaySyncMessage) (hp : q.Pairwise versionOrdered)
    (n : String) (c : Nat) (m x : RaySyncMessage)
    (hm : m ∈ RaySyncer.messagesFor q n c)
    (hmax : ∀ a ∈ RaySyncer.messagesFor q n c, a.version ≤ m.version)
    (hx : (q.filter (fun a => a.node_id = n)).getLast? = some x)
    (hxc : x.component_id = c) : m = x ∧ m ∈ coalesce q := by
  have hl : (RaySyncer.messagesFor q n c).getLast? = some x := by
    rw [messagesFor_eq_filter_filter]
    exact getLast?_filter_of_pos _ _ x hx (by simpa using hxc)
  have hmx := highest_is_last q hp n c m x hm hmax hl
  refine ⟨hmx, ?_⟩
  have hmem : x ∈ (coalesce q).filter (fun a => a.node_id = n) := by
    rw [coalesce_filter, hx]
    simp
  rw [hmx]
  exact (List.mem_filter.mp hmem).1

/-- C17, amended. Take the queue of any session reached from the initial state by
`Update` calls (read and write completions may be interleaved), as it is left after
the consumed entries are removed, and a key `(n, c)` that occurs in it. Let `m` be
the queued message with the highest version of that key. If the most recently queued
message of node `n` carries the component id `c` - as it does whenever all queued
messages of node `n` carry the component id `c` - then `SendNextMessage` builds a
batch, hands it to `StartWrite`, and the batch contains `m`. -/
theorem coalescing_keeps_last_component (kIsServer : Bool) (events : List Event)
    (n : String) (c : Nat) (m : RaySyncMessage)
    (hm : m ∈ RaySyncer.messagesFor ((init kIsServer).run events).pending n c)
    (hmax : ∀ a ∈ RaySyncer.messagesFor ((init kIsServer).run events).pending n c,
      a.version ≤ m.version) :
    ((init kIsServer).run events).SendNextMessage.out_message_ =
      some (coalesce ((init kIsServer).run events).pending) ∧
    ((init kIsServer).run events).SendNextMessage.calls =
      ((init kIsServer).run events).calls ++
        [Call.StartWrite (coalesce ((init kIsServer).run events).pending)] ∧
    (∀ x, (((init kIsServer).run events).pending.filter
        (fun a => a.node_id = n)).getLast? = some x → x.component_id = c →
      m ∈ coalesce ((init kIsServer).run events).pending) ∧
    ((∀ a ∈ ((init kIsServer).run events).pending, a.node_id = n → a.component_id = c) →
      m ∈ coalesce ((init kIsServer).run events).pending) := by
  have hord := pending_ordered kIsServer events
  generalize (init kIsServer).run events = s at hm hmax hord ⊢
  have hmq : m ∈ s.pending := (RaySyncer.mem_messagesFor hm).1
  have hne : s.pending ≠ [] := fun h => by rw [h] at hmq; cases hmq
  have hA : ∀ x, (s.pending.filter (fun a => a.node_id = n)).getLast? = some x →
      x.component_id = c → m ∈ coalesce s.pending :=
    fun x hx hxc => (coalesce_keeps_key s.pending hord n c m x hm hmax hx hxc).2
  rw [SendNextMessage_of_pending s hne]
  refine ⟨rfl, rfl, hA, ?_⟩
  intro hone
  have hmn : m ∈ s.pending.filter (fun a => a.node_id = n) :=
    List.mem_filter.mpr ⟨hmq, by simpa using (RaySyncer.mem_messagesFor hm).2.1⟩
  cases hl : (s.pending.filter (fun a => a.node_id = n)).getLast? with
  | none =>
    rw [List.getLast?_eq_none_iff] at hl
    rw [hl] at hmn
    cases hmn
  | some x =>
    have hxmem := List.mem_filter.mp (List.mem_of_getLast?_eq_some hl)
    exact hA x hl (hone x hxmem.1 (by simpa using hxmem.2))

/-- C17 amended, at a concrete session: behind a write in flight the queue holds
versions 2, 3 and 4 of ("X", 0) and one message of node "Y", all of component 0; the
batch contains version 4 of ("X", 0), the highest queued version of that key. -/
theorem coalescing_keeps_last_component_witness :
    snapshot "X" 0 4 "e" ∈ coalesce
      ((init true).run
        [Event.Enqueue (snapshot "X" 0 1 "a"), Event.Enqueue (snapshot "X" 0 2 "b"),
         Event.Enqueue (snapshot "Y" 0 1 "c"), Event.Enqueue (snapshot "X" 0 3 "d"),
         Event.Enqueue (snapshot "X" 0 4 "e")]).pending :=
  (coalescing_keeps_last_component true
      [Event.Enqueue (snapshot "X" 0 1 "a"), Event.Enqueue (snapshot "X" 0 2 "b"),
       Event.Enqueue (snapshot "Y" 0 1 "c"), Event.Enqueue (snapshot "X" 0 3 "d"),
       Event.Enqueue (snapshot "X" 0 4 "e")]
      "X" 0 (snapshot "X" 0 4 "e") (by decide) (by decide)).2.2.2 (by decide)

end NodeSyncContext

end ray.syncing
